import Mathlib

/-!
# envflag: environment-variable overrides for Go flags

A shallow embedding of the package `envflag` (`config.go`, `envflag.go`) together
with the part of Go's standard `flag`, `strings` and `os` packages that the package
drives, followed by theorems about `Parse`, `configFor`, `updateUsage`,
`setValuesFromEnv` and `defaultMapper`.

Conventions of the embedding:

* Go strings are Lean strings (sequences of runes); every byte test of the Go code is
  a test against an ASCII byte, so it reads the same on runes.
* A `*flag.Flag` is identified with the flag's name, the key of the map
  `FlagSet.formal`; a `*flag.FlagSet` is identified with the state of the flag set,
  which is threaded through a `Run`.
* The `flag.Value` of a flag is a reference: the variables behind the values are the
  cells `FlagSet.vars`, a flag holds the address of its cell, and two flags may hold the
  same address (`set.StringVar(&x, "name", ...)` and `set.StringVar(&x, "n", ...)`).
* A run-time panic (a call of a nil function, a slice expression out of range) is an
  event of the log and ends the run.
* Side effects (environment lookups, writes to the output sink, calls of the usage
  printer, of the exit callback, of `Value.Set`) are appended to the log of the `Run`
  in the order in which they happen.  A run whose process has terminated is `halted`
  and executes no further statement.
* The exit callback `c.exit` is known by what a call does with control: `os.Exit`, the
  default, never returns; the callback that the test suite installs with `withExit`
  returns.  The other functions that a caller supplies (the method `Set` of a value, a
  function in the field `Usage`) return to their caller.
-/

namespace envflag

/-! ## `strings` and `unicode` -/

/-- Go's `unicode.ToUpper`: an ASCII rune is shifted from `a..z` to `A..Z` and is
otherwise unchanged; a rune above ASCII is mapped by the Unicode case tables, which
are not part of this repository and are the parameter `tbl`. -/
def unicodeToUpper (tbl : Char → Char) (r : Char) : Char :=
  if r.toNat ≤ 0x7F then
    if 'a' ≤ r ∧ r ≤ 'z' then Char.ofNat (r.toNat - 32) else r
  else tbl r

/-- Go's `strings.ToUpper`: every rune is mapped by `unicode.ToUpper`. -/
def ToUpper (tbl : Char → Char) (s : String) : String :=
  ⟨s.data.map (unicodeToUpper tbl)⟩

/-- The loop of `strings.Replace` for a non-empty `old`: scan from the left, replace a
match by `new` and continue behind it; `skip` counts the runes of the current match
that are still to be dropped. -/
def replaceLoop (old new : List Char) : Nat → List Char → List Char
  | _, [] => []
  | skip + 1, _ :: cs => replaceLoop old new skip cs
  | 0, c :: cs =>
    if old.isPrefixOf (c :: cs) then new ++ replaceLoop old new (old.length - 1) cs
    else c :: replaceLoop old new 0 cs

/-- Go's `strings.ReplaceAll(s, old, new)`: all non-overlapping instances of `old`
replaced by `new`; an empty `old` matches at the beginning of the string and after
each rune. -/
def ReplaceAll (s old new : String) : String :=
  if old.data = [] then ⟨new.data ++ (s.data.map (fun c => c :: new.data)).flatten⟩
  else ⟨replaceLoop old.data new.data 0 s.data⟩

/-- Go's `strings.HasPrefix(s, pre)`. -/
def HasPrefix (s pre : String) : Bool :=
  pre.data.isPrefixOf s.data

/-- The three-way lexicographic comparison behind `strings.Compare`, on runes (the
byte order of UTF-8 is the order of the code points). -/
def compareRunes : List Char → List Char → Int
  | [], [] => 0
  | [], _ :: _ => -1
  | _ :: _, [] => 1
  | a :: as, b :: bs =>
    if a.toNat < b.toNat then -1
    else if b.toNat < a.toNat then 1
    else compareRunes as bs

/-- Go's `strings.Compare`. -/
def Compare (a b : String) : Int :=
  compareRunes a.data b.data

/-! ## The `flag` package (the registry the package drives)

The flag registry is Go's standard package `flag`, which is not part of the repository.
The definitions of this section follow its source (`flag.go`: `Flag`, `FlagSet`,
`sortFlags`, `VisitAll`, `Set`, `failf`, `usage`, `parseOne`, `Parse`).  The values of the
flags are a parameter: a flag carries the address of the variable behind its
`flag.Value` and the method `Set` of that value, which for a user-defined value may be any
function of the state of the variable and the text. -/

/-- What a call of an exit routine does with control: `os.Exit` terminates the
process, a callback supplied by a test harness may return. -/
inductive ExitResult
  | returns
  | terminates
  deriving DecidableEq, Repr

/-- The observable effects of a run, logged in order: a lookup in the environment, a
call of `FlagSet.Set`, a call of `FlagSet.Parse`, a call of the method `Set` of the value
of a flag together with the error it returned (`none` for `nil`), a write to the output
sink, a call of the usage printer, a call of the exit callback, a call of `os.Exit` by
the `flag` package, a panic. -/
inductive Event
  | lookupEnv (varName : String)
  | set (name value : String)
  | parse (arguments : List String)
  | valueSet (name value : String) (err : Option String)
  | write (text : String)
  | usage
  | exit (code : Int)
  | osExit (code : Int)
  | panic (msg : String)
  deriving DecidableEq, Repr

/-- The error values of `flag`: the sentinel `flag.ErrHelp`, or an error made by
`failf` from a message. -/
inductive FlagError
  | ErrHelp
  | failure (msg : String)
  deriving DecidableEq, Repr

/-- The text of an error (`err.Error()`). -/
def FlagError.Error : FlagError → String
  | .ErrHelp => "flag: help requested"
  | .failure msg => msg

/-- Go's `flag.ErrorHandling`. -/
inductive ErrorHandling
  | ContinueOnError
  | ExitOnError
  | PanicOnError
  deriving DecidableEq, Repr

/-- Go's `flag.Flag`.  The interface value `Value` is spelled out: `Value` is the
address of the variable it points to (`*stringValue` is a pointer to the string of the
program), `Set` its method `Set(string) error` (given the state of the variable before
the call it returns the state after the call and the error, `none` for `nil`; a setter
may change the state and return an error, as the integer and boolean values of `flag`
do), `IsBoolFlag` whether it is a boolean flag in the sense of `flag.boolFlag`. -/
structure Flag (V : Type) where
  Name : String
  Usage : String
  Value : Nat
  Set : V → String → V × Option String
  IsBoolFlag : Bool
  DefValue : String

/-- A non-nil function in the field `Usage` of a flag set: `defaultUsage`, which
`flag.NewFlagSet` installs, or a function of the caller.  A call prints a usage message,
which is logged as `Event.usage`, and returns. -/
inductive UsageFunc
  | printer
  deriving DecidableEq, Repr

/-- Go's `flag.FlagSet`: `formal` is the map of the declared flags, keyed by name,
`actual` the names of the flags that have been set, `args` the arguments left to
parse, `Usage` the field `Usage func()`, which is nil (`none`) in a flag set that was not
made by `flag.NewFlagSet` (the zero value `flag.FlagSet{}` is a flag set ready to use).
The cells `vars` are the variables that the values of the flags point to.  The output
sink is observed through the log. -/
structure FlagSet (V : Type) where
  name : String
  formal : List (Flag V)
  actual : List String
  args : List String
  parsed : Bool
  errorHandling : ErrorHandling
  Usage : Option UsageFunc
  vars : Nat → V

/-- A run of the program: the state of the flag set it works on, the effects so far,
and whether the process has terminated. -/
structure Run (V : Type) where
  flagSet : FlagSet V
  log : List Event
  halted : Bool

variable {V : Type}

/-- Append an effect to the log. -/
def Run.emit (r : Run V) (e : Event) : Run V :=
  { r with log := r.log ++ [e] }

/-- The map lookup `f.formal[name]`. -/
def FlagSet.lookup (fs : FlagSet V) (name : String) : Option (Flag V) :=
  fs.formal.find? (fun f => f.Name == name)

/-- The current value of the flag called `name`, if it is declared: the state of the
variable its `flag.Value` points to. -/
def FlagSet.valueOf (fs : FlagSet V) (name : String) : Option V :=
  (fs.lookup name).map (fun f => fs.vars f.Value)

/-- The current usage text of the flag called `name`, if it is declared. -/
def FlagSet.usageOf (fs : FlagSet V) (name : String) : Option String :=
  (fs.lookup name).map (fun f => f.Usage)

/-- A write through the pointer to the flag called `name`. -/
def FlagSet.modify (fs : FlagSet V) (name : String) (g : Flag V → Flag V) : FlagSet V :=
  { fs with formal := fs.formal.map (fun f => if f.Name == name then g f else f) }

/-- The statement `f.actual[name] = flag`. -/
def FlagSet.markActual (fs : FlagSet V) (name : String) : FlagSet V :=
  { fs with actual := if name ∈ fs.actual then fs.actual else fs.actual ++ [name] }

/-- Insertion of a flag into a list ordered by `strings.Compare` on the names. -/
def insertFlag (f : Flag V) : List (Flag V) → List (Flag V)
  | [] => [f]
  | g :: gs => if Compare f.Name g.Name ≤ 0 then f :: g :: gs else g :: insertFlag f gs

/-- Go's `flag.sortFlags`: the flags of the map in lexicographical order of their
names.  The names of a map are distinct, so the order does not depend on the sorting
algorithm; insertion sort stands for `slices.SortFunc`. -/
def sortFlags (flags : List (Flag V)) : List (Flag V) :=
  flags.foldr insertFlag []

/-- The loop of `FlagSet.VisitAll` over a slice of flags: `fn` is called on each of them
in turn, through the pointer to the flag, as long as the process runs. -/
def visit (fn : String → Run V → Run V) (flags : List (Flag V)) (r : Run V) : Run V :=
  flags.foldl (fun r f => if r.halted then r else fn f.Name r) r

/-- Go's `FlagSet.VisitAll`: `fn` is called on every declared flag in lexicographical
order.  The sorted slice of pointers is taken before the first call. -/
def VisitAll (fn : String → Run V → Run V) (r : Run V) : Run V :=
  visit fn (sortFlags r.flagSet.formal) r

/-- The call `flag.Value.Set(value)` on a flag, as made by the `flag` package: the call
and the error it returns are logged, and the state after the call is written to the
variable that the value points to. -/
def valueSet (flag : Flag V) (value : String) (r : Run V) : Option String × Run V :=
  ((flag.Set (r.flagSet.vars flag.Value) value).2,
    { r.emit (Event.valueSet flag.Name value (flag.Set (r.flagSet.vars flag.Value) value).2) with
      flagSet := { r.flagSet with
        vars := Function.update r.flagSet.vars flag.Value
          (flag.Set (r.flagSet.vars flag.Value) value).1 } })

/-- Go's `FlagSet.Set(name, value)`. -/
def FlagSet.Set (name value : String) (r : Run V) : Option String × Run V :=
  let r := r.emit (Event.set name value)
  match r.flagSet.lookup name with
  | none => (some ("no such flag -" ++ name), r)
  | some flag =>
    match valueSet flag value r with
    | (some e, r) => (some e, r)
    | (none, r) => (none, { r with flagSet := r.flagSet.markActual name })

/-- Go's `FlagSet.usage`: `if f.Usage == nil { f.defaultUsage() } else { f.Usage() }`;
either way a usage message is printed. -/
def FlagSet.usage (r : Run V) : Run V :=
  match r.flagSet.Usage with
  | none => r.emit Event.usage
  | some _ => r.emit Event.usage

/-- Go's `FlagSet.failf`: the message is written to the output sink, followed by a
newline, `f.usage()` is called, and the error is returned. -/
def failf (msg : String) (r : Run V) : Bool × Option FlagError × Run V :=
  (false, some (FlagError.failure msg), FlagSet.usage (r.emit (Event.write (msg ++ "\n"))))

/-- The verb `%q` of `fmt` on a string: the string in double quotes (the escapes of
`strconv.Quote` for special characters are not spelled out). -/
def quote (s : String) : String :=
  "\"" ++ s ++ "\""

/-- The search `for i := 1; i < len(name); i++ { if name[i] == '=' ... }` of
`parseOne`: the name is cut at the first `=` behind its first rune. -/
def splitName : List Char → List Char × Option (List Char)
  | [] => ([], none)
  | c :: rest =>
    match rest.span (fun x => x != '=') with
    | (a, []) => (c :: a, none)
    | (a, _ :: b) => (c :: a, some b)

/-- The pattern `if err := flag.Value.Set(value); err != nil { return false,
f.failf(...) }` of `parseOne`, followed by its end `f.actual[name] = flag; return true,
nil`; `msg` makes the message from the error of the setter. -/
def setOrFail (flag : Flag V) (value : String) (msg : String → String) (name : String)
    (r : Run V) : Bool × Option FlagError × Run V :=
  match valueSet flag value r with
  | (some e, r) => failf (msg e) r
  | (none, r) => (true, none, { r with flagSet := r.flagSet.markActual name })

/-- Go's `FlagSet.parseOne`: parses one flag; the first component reports whether one
was seen. -/
def parseOne (r : Run V) : Bool × Option FlagError × Run V :=
  match r.flagSet.args with
  | [] => (false, none, r)
  | s :: rest =>
    let cs := s.data
    if cs.length < 2 ∨ cs.head? ≠ some '-' then (false, none, r)
    else
      let numMinuses := if cs.get? 1 = some '-' then 2 else 1
      if numMinuses = 2 ∧ cs.length = 2 then
        (false, none, { r with flagSet := { r.flagSet with args := rest } })
      else
        let name := cs.drop numMinuses
        if name.length = 0 ∨ name.head? = some '-' ∨ name.head? = some '=' then
          failf ("bad flag syntax: " ++ s) r
        else
          let r : Run V := { r with flagSet := { r.flagSet with args := rest } }
          let given : Option String := (splitName name).2.map String.mk
          let name : String := ⟨(splitName name).1⟩
          match r.flagSet.lookup name with
          | none =>
            if name = "help" ∨ name = "h" then (false, some FlagError.ErrHelp, FlagSet.usage r)
            else failf ("flag provided but not defined: -" ++ name) r
          | some flag =>
            if flag.IsBoolFlag then
              match given with
              | some value =>
                setOrFail flag value
                  (fun e => "invalid boolean value " ++ quote value ++ " for -" ++ name ++ ": " ++ e)
                  name r
              | none =>
                setOrFail flag "true"
                  (fun e => "invalid boolean flag " ++ name ++ ": " ++ e) name r
            else
              match given, r.flagSet.args with
              | none, [] => failf ("flag needs an argument: -" ++ name) r
              | none, value :: rest =>
                setOrFail flag value
                  (fun e => "invalid value " ++ quote value ++ " for flag -" ++ name ++ ": " ++ e)
                  name { r with flagSet := { r.flagSet with args := rest } }
              | some value, _ =>
                setOrFail flag value
                  (fun e => "invalid value " ++ quote value ++ " for flag -" ++ name ++ ": " ++ e)
                  name r

/-- The loop of `FlagSet.Parse`: `parseOne` is repeated while it sees a flag; an error
is returned, or ends the process (`os.Exit(0)` for `ErrHelp`, `os.Exit(2)` otherwise),
or panics, as the error handling of the flag set says.  Every round that sees a flag
consumes an argument, so `fuel` above the number of arguments is never used up. -/
def parseLoop : Nat → Run V → Option FlagError × Run V
  | 0, r => (none, r)
  | fuel + 1, r =>
    match parseOne r with
    | (true, _, r) => parseLoop fuel r
    | (false, none, r) => (none, r)
    | (false, some err, r) =>
      match r.flagSet.errorHandling with
      | .ContinueOnError => (some err, r)
      | .ExitOnError =>
        (none, { r.emit (Event.osExit (if err = FlagError.ErrHelp then 0 else 2)) with halted := true })
      | .PanicOnError => (none, { r.emit (Event.panic err.Error) with halted := true })

/-- Go's `FlagSet.Parse(arguments)`; the result is the returned error (`none` for
`nil`) and the run after the call. -/
def FlagSet.Parse (arguments : List String) (r : Run V) : Option FlagError × Run V :=
  let r := r.emit (Event.parse arguments)
  parseLoop (arguments.length + 1)
    { r with flagSet := { r.flagSet with parsed := true, args := arguments } }

/-! ## `config.go` -/

/-- What the package takes from the process it runs in: the default flag set
`flag.CommandLine`, the slice `os.Args` (the program name followed by the arguments; a
process may be started with an empty one), the environment behind `os.LookupEnv`, and the
Unicode case table used by `strings.ToUpper` above ASCII. -/
structure Host (V : Type) where
  CommandLine : FlagSet V
  Args : List String
  LookupEnv : String → Option String
  upperTable : Char → Char

/-- The type `config`: the caller-configurable options of the package.  The callback
`exit` is observed through the log; the field tells whether a call with the given
status returns control.  The slice `arguments` may be nil, which is `none`. -/
structure config (V : Type) where
  flagSet : FlagSet V
  showInUsage : Bool
  mapper : String → String
  exit : Int → ExitResult
  arguments : Option (List String)

/-- The type `Option` of the package, `func(*config)`: a configuration option is an
update of the configuration; as a value of a function type it may be nil (`none`). -/
abbrev OptionFn (V : Type) := Option (config V → config V)

/-- The option `WithFlagSet`.  The pointer it is given is taken to be that of a flag set
(on a nil pointer the first step of `Parse` that touches the flag set panics). -/
def WithFlagSet (flagSet : FlagSet V) : OptionFn V :=
  some (fun c => { c with flagSet := flagSet })

/-- The option `WithShowInUsage`. -/
def WithShowInUsage (showInUsage : Bool) : OptionFn V :=
  some (fun c => { c with showInUsage := showInUsage })

/-- The option `WithPrefix`: the mapper in force when the option is applied is
wrapped, `fmt.Sprintf("%s%s", prefix, originalMapper(s))`. -/
def WithPrefix (pfx : String) : OptionFn V :=
  some (fun c =>
    let originalMapper := c.mapper
    { c with mapper := fun s => pfx ++ originalMapper s })

/-- The option `WithArguments`; the slice it is given may be nil (`none`). -/
def WithArguments (arguments : Option (List String)) : OptionFn V :=
  some (fun c => { c with arguments := arguments })

/-- The option `withExit` of the test suite. -/
def withExit (exit : Int → ExitResult) : OptionFn V :=
  some (fun c => { c with exit := exit })

/-- The function `defaultMapper`:
`strings.ReplaceAll(strings.ReplaceAll(strings.ToUpper(flagName), "-", "_"), ".", "_")`. -/
def defaultMapper (tbl : Char → Char) (flagName : String) : String :=
  ReplaceAll (ReplaceAll (ToUpper tbl flagName) "-" "_") "." "_"

/-- Go's `os.Exit`: it never returns. -/
def osExit : Int → ExitResult :=
  fun _ => ExitResult.terminates

/-- The message of the panic of a slice expression `s[1:]` on an empty slice. -/
def sliceBoundsPanic : String :=
  "runtime error: slice bounds out of range [1:0]"

/-- The message of the panic of a call of a nil function. -/
def nilCallPanic : String :=
  "runtime error: invalid memory address or nil pointer dereference"

/-- The loop `for i := range opts { opts[i](c) }` of `configFor`: the options are applied
in the order given; the call of a nil option panics. -/
def applyOptions : List (OptionFn V) → config V → Except String (config V)
  | [], c => Except.ok c
  | none :: _, _ => Except.error nilCallPanic
  | some opt :: rest, c => applyOptions rest (opt c)

/-- The function `configFor`: the defaults, then the options in the order given.  The
result is the configuration, or the message of the panic that ends the call: `os.Args[1:]`
panics when `os.Args` is empty, and so does the call of a nil option. -/
def configFor (h : Host V) (opts : List (OptionFn V)) : Except String (config V) :=
  match h.Args with
  | [] => Except.error sliceBoundsPanic
  | _ :: arguments =>
    applyOptions opts
      { flagSet := h.CommandLine
        showInUsage := true
        mapper := defaultMapper h.upperTable
        exit := osExit
        arguments := some arguments }

/-- The non-nil options a caller can build: the four exported constructors and the
`withExit` of the test suite (the type `config` is unexported, so no other function of
type `Option` can be written outside the package; the nil option is `none`). -/
inductive OptionSpec (V : Type)
  | flagSet (flagSet : FlagSet V)
  | showInUsage (showInUsage : Bool)
  | withPrefix (pfx : String)
  | arguments (arguments : Option (List String))
  | exit (exit : Int → ExitResult)

/-- The option built by a constructor call; it is not nil. -/
def OptionSpec.toOption : OptionSpec V → OptionFn V
  | .flagSet fs => WithFlagSet fs
  | .showInUsage b => WithShowInUsage b
  | .withPrefix p => WithPrefix p
  | .arguments a => WithArguments a
  | .exit e => withExit e

/-! ## `envflag.go` -/

/-- The call `c.exit(code)`: the call is logged; the process goes on only if the
callback returns. -/
def callExit (c : config V) (code : Int) (r : Run V) : Run V :=
  { r.emit (Event.exit code) with halted := decide (c.exit code = ExitResult.terminates) }

/-- The body of the function literal of `updateUsage`, on the flag it is called with: the
usage text gets the prefix `fmt.Sprintf("[%s] ", c.mapper(f.Name))` unless it has it
already. -/
def annotate (c : config V) (f : Flag V) : Flag V :=
  let pfx := "[" ++ c.mapper f.Name ++ "] "
  if !HasPrefix f.Usage pfx then { f with Usage := pfx ++ f.Usage } else f

/-- The function literal of `updateUsage`, called through the pointer to the flag `name`. -/
def annotateFlag (c : config V) (name : String) (r : Run V) : Run V :=
  { r with flagSet := r.flagSet.modify name (annotate c) }

/-- The function `updateUsage`. -/
def updateUsage (c : config V) (r : Run V) : Run V :=
  VisitAll (annotateFlag c) r

/-- The function literal of `setValuesFromEnv`, called on the flag `name`: if the
environment variable of the flag exists the flag is set from it; a failure is reported
on the output sink, the function in the field `Usage` of the flag set is called and the
exit callback is called with status 2.  The call `c.flagSet.Usage()` is a call of the
field itself: when the field is nil the call panics. -/
def setFromEnv (h : Host V) (c : config V) (name : String) (r : Run V) : Run V :=
  let varName := c.mapper name
  let r := r.emit (Event.lookupEnv varName)
  match h.LookupEnv varName with
  | none => r
  | some value =>
    match FlagSet.Set name value r with
    | (none, r) => r
    | (some err, r) =>
      let r := r.emit (Event.write
        ("Unable to set flag " ++ name ++ " value to " ++ value ++ " from environment: " ++ err ++ "\n"))
      match r.flagSet.Usage with
      | none => { r.emit (Event.panic nilCallPanic) with halted := true }
      | some _ =>
        let r := r.emit Event.usage
        callExit c 2 r

/-- The function `setValuesFromEnv`. -/
def setValuesFromEnv (h : Host V) (c : config V) (r : Run V) : Run V :=
  VisitAll (setFromEnv h c) r

/-- The run at the start of `Parse`: the flag set of the configuration, no effect yet. -/
def startRun (c : config V) : Run V :=
  { flagSet := c.flagSet, log := [], halted := false }

/-- The elements of a Go slice of strings; the nil slice has none. -/
def elems (slice : Option (List String)) : List String :=
  slice.getD []

/-- The statements of `Parse` behind the call of `configFor`, for the configuration `c`
that the call returned. -/
def parseWith (h : Host V) (c : config V) : Run V :=
  let r := startRun c
  let r := if c.showInUsage then updateUsage c r else r
  let r := setValuesFromEnv h c r
  if r.halted then r
  else
    match FlagSet.Parse (elems c.arguments) r with
    | (none, r) => r
    | (some err, r) =>
      let r := if err = FlagError.ErrHelp then callExit c 0 r else r
      if r.halted then r else callExit c 2 r

/-- The function `Parse`.  When `configFor` panics the run ends with the panic, before
any flag set is touched (the run then shows `flag.CommandLine` as it was). -/
def Parse (h : Host V) (opts : List (OptionFn V)) : Run V :=
  match configFor h opts with
  | Except.error msg => { flagSet := h.CommandLine, log := [Event.panic msg], halted := true }
  | Except.ok c => parseWith h c

/-! ## The flags of the test suite -/

/-- The values held by the sample flags: the standard string, boolean and integer
values of `flag`, and a list value of a user-defined flag. -/
inductive Val
  | str (s : String)
  | bool (b : Bool)
  | int (i : Int)
  | list (xs : List String)
  deriving DecidableEq, Repr

/-- The setter `stringValue.Set`: the value becomes the text. -/
def stringSet : Val → String → Val × Option String :=
  fun _ s => (Val.str s, none)

/-- The setter `boolValue.Set`: the texts accepted by `strconv.ParseBool`; on any other
text the value becomes `false` and the error `parse error` is returned. -/
def boolSet : Val → String → Val × Option String :=
  fun _ s =>
    if s ∈ ["1", "t", "T", "TRUE", "true", "True"] then (Val.bool true, none)
    else if s ∈ ["0", "f", "F", "FALSE", "false", "False"] then (Val.bool false, none)
    else (Val.bool false, some "parse error")

/-- The value of a string of decimal digits. -/
def parseDigits : List Char → Option Nat
  | [] => none
  | cs => cs.foldl (fun acc c =>
      match acc with
      | none => none
      | some n => if c.isDigit then some (10 * n + (c.toNat - 48)) else none) (some 0)

/-- The setter `intValue.Set`, for decimal texts with an optional sign (the other bases
and the range check of `strconv.ParseInt` are not spelled out); on any other text the
value becomes `0` and the error `parse error` is returned. -/
def intSet : Val → String → Val × Option String :=
  fun _ s =>
    match s.data with
    | '-' :: cs =>
      match parseDigits cs with
      | some n => (Val.int (-(n : Int)), none)
      | none => (Val.int 0, some "parse error")
    | '+' :: cs =>
      match parseDigits cs with
      | some n => (Val.int n, none)
      | none => (Val.int 0, some "parse error")
    | cs =>
      match parseDigits cs with
      | some n => (Val.int n, none)
      | none => (Val.int 0, some "parse error")

/-- The setter of a user-defined `flag.Value` that collects the texts it is given, the
usual way to let a flag be repeated: every call appends its text to the list. -/
def listSet : Val → String → Val × Option String :=
  fun v s =>
    match v with
    | Val.list xs => (Val.list (xs ++ [s]), none)
    | _ => (Val.list [s], none)

/-- A declaration on a flag set: the flag that enters the map `formal`, and the value that
the declaration writes to the variable behind the flag (`*p = value` in `StringVar`). -/
structure Decl where
  flag : Flag Val
  init : Val

/-- The declaration `set.StringVar(&x, name, value, usage)` for the string variable `x` at
the address `p` (`set.String` is the same on a fresh variable). -/
def stringFlag (p : Nat) (name value usage : String) : Decl :=
  { flag := { Name := name, Usage := usage, Value := p, Set := stringSet,
              IsBoolFlag := false, DefValue := value },
    init := Val.str value }

/-- The declaration `set.BoolVar(&x, name, value, usage)` for the variable at `p`. -/
def boolFlag (p : Nat) (name : String) (value : Bool) (usage : String) : Decl :=
  { flag := { Name := name, Usage := usage, Value := p, Set := boolSet,
              IsBoolFlag := true, DefValue := if value then "true" else "false" },
    init := Val.bool value }

/-- The declaration `set.IntVar(&x, name, value, usage)` for the variable at `p`. -/
def intFlag (p : Nat) (name : String) (value : Int) (usage : String) : Decl :=
  { flag := { Name := name, Usage := usage, Value := p, Set := intSet,
              IsBoolFlag := false, DefValue := toString value },
    init := Val.int value }

/-- The declaration `set.Var(&list, name, usage)` of a list flag for the empty list at `p`. -/
def listFlag (p : Nat) (name usage : String) : Decl :=
  { flag := { Name := name, Usage := usage, Value := p, Set := listSet,
              IsBoolFlag := false, DefValue := "" },
    init := Val.list [] }

/-- The variables after a sequence of declarations: every declaration writes its value to
its variable, so the last declaration on a variable decides. -/
def initialVars : List Decl → Nat → Val
  | [], _ => Val.str ""
  | d :: rest, p =>
    match rest.find? (fun e => e.flag.Value == p) with
    | some _ => initialVars rest p
    | none => if d.flag.Value = p then d.init else initialVars rest p

/-- The flag set `flag.NewFlagSet(name, errorHandling)` with the given declarations made:
`NewFlagSet` installs `defaultUsage` in the field `Usage`. -/
def NewFlagSet (name : String) (errorHandling : ErrorHandling) (decls : List Decl) :
    FlagSet Val :=
  { name := name, formal := decls.map Decl.flag, actual := [], args := [], parsed := false,
    errorHandling := errorHandling, Usage := some UsageFunc.printer, vars := initialVars decls }

/-- The zero value of `flag.FlagSet` (`var set flag.FlagSet`, or `&flag.FlagSet{}`) with
the given declarations made: it has no name, the error handling `ContinueOnError`, and a
nil field `Usage`. -/
def zeroFlagSet (decls : List Decl) : FlagSet Val :=
  { name := "", formal := decls.map Decl.flag, actual := [], args := [], parsed := false,
    errorHandling := ErrorHandling.ContinueOnError, Usage := none, vars := initialVars decls }

/-- An environment given by a list of bindings. -/
def envOf (bindings : List (String × String)) : String → Option String :=
  fun name => (bindings.find? (fun b => b.1 == name)).map (fun b => b.2)

/-- A host process with the given environment, an empty default flag set, no
arguments behind the program name `test`, and a case table that leaves the runes above ASCII unchanged. -/
def hostOf (bindings : List (String × String)) : Host Val :=
  { CommandLine := NewFlagSet "test" ErrorHandling.ExitOnError []
    Args := ["test"]
    LookupEnv := envOf bindings
    upperTable := fun c => c }

/-- The flag set of `TestMapsEnvironmentVariables`, `TestParsesAndPrefersArguments` and
`TestWithPrefix`. -/
def testSet : FlagSet Val :=
  NewFlagSet "test" ErrorHandling.ExitOnError
    [stringFlag 0 "my-string" "foo" "Some string flag",
     boolFlag 1 "my-bool" true "Some bool flag",
     stringFlag 2 "other-string" "baz" "A third flag"]

/-- Two string flags declared on one variable, a long and a short name for one setting:
`set.StringVar(&x, "name", "def", ...)` and `set.StringVar(&x, "n", "def", ...)`. -/
def aliasSet : FlagSet Val :=
  NewFlagSet "test" ErrorHandling.ContinueOnError
    [stringFlag 0 "name" "def" "A name", stringFlag 0 "n" "def" "The same name"]

/-- A flag set with the list flag `tag`, a flag that may be repeated. -/
def tagSet : FlagSet Val :=
  NewFlagSet "test" ErrorHandling.ContinueOnError [listFlag 0 "tag" "tags"]

/-- A flag set with an integer flag `a-int` and a string flag `b-str`. -/
def pairSet : FlagSet Val :=
  NewFlagSet "test" ErrorHandling.ContinueOnError
    [intFlag 0 "a-int" 0 "Some int flag", stringFlag 1 "b-str" "x" "Some string flag"]

/-- The flag set of `TestExitsStatusTwoForBadEnvVars`: the integer flag `my-int`. -/
def intSetOf : FlagSet Val :=
  NewFlagSet "test" ErrorHandling.ContinueOnError [intFlag 0 "my-int" 0 "Some int flag"]

/-- The same flag declared on the zero value of `flag.FlagSet`:
`set := &flag.FlagSet{}; set.Int("my-int", 0, "Some int flag")`. -/
def zeroIntSet : FlagSet Val :=
  zeroFlagSet [intFlag 0 "my-int" 0 "Some int flag"]

/-- The flag set of `TestShowsEnvNamesInUsage` and of the other tests of the usage texts. -/
def usageSet : FlagSet Val :=
  NewFlagSet "test" ErrorHandling.ContinueOnError
    [stringFlag 0 "test-flag-plz-ignore" "foo" "Some usage"]

/-- A process started with an empty argument vector: `os.Args` is empty. -/
def bareHost : Host Val :=
  { CommandLine := NewFlagSet "test" ErrorHandling.ExitOnError []
    Args := []
    LookupEnv := envOf []
    upperTable := fun c => c }

/-- A flag set with the flag `n`, whose usage text already shows a bracketed name. -/
def bracketSet : FlagSet Val :=
  NewFlagSet "test" ErrorHandling.ContinueOnError [stringFlag 0 "n" "foo" "[X_N] Some usage"]

/-- A flag set with two flags whose names the default mapper sends to `MY_FLAG`. -/
def collidingSet : FlagSet Val :=
  NewFlagSet "test" ErrorHandling.ContinueOnError
    [stringFlag 0 "my-flag" "a" "First flag", stringFlag 1 "my.flag" "b" "Second flag"]

/-- The exit callback of the test suite: it records the status and returns. -/
def recordingExit : Int → ExitResult :=
  fun _ => ExitResult.returns

/-- The configuration that `configFor` returns for `WithFlagSet(set)` followed by
`WithPrefix` options with the given prefixes, on a host of the kind `hostOf`. -/
def testConfig (set : FlagSet Val) (prefixes : List String) : config Val :=
  { flagSet := set
    showInUsage := true
    mapper := fun s => prefixes.foldl (fun acc p => p ++ acc) (defaultMapper (fun c => c) s)
    exit := osExit
    arguments := some [] }

/-- The configuration of `TestExitsStatusZeroForHelp`: an empty flag set, the argument
`-help` and the exit callback of the test suite. -/
def helpConfig : config Val :=
  { flagSet := NewFlagSet "test" ErrorHandling.ContinueOnError []
    showInUsage := true
    mapper := defaultMapper (fun c => c)
    exit := recordingExit
    arguments := some ["-help"] }

/-! ## Notions used in the statements -/

/-- The prefixes of the `WithPrefix` options of a sequence, in the order supplied. -/
def prefixesOf : List (OptionSpec V) → List String
  | [] => []
  | OptionSpec.withPrefix p :: rest => p :: prefixesOf rest
  | _ :: rest => prefixesOf rest

/-- The value that `pick` finds in the last option of a sequence in which it finds one. -/
def lastPick {α : Type} (pick : OptionSpec V → Option α) : List (OptionSpec V) → Option α
  | [] => none
  | o :: rest =>
    match lastPick pick rest with
    | some a => some a
    | none => pick o

/-- The slice of a `WithArguments` option. -/
def OptionSpec.pickArguments : OptionSpec V → Option (Option (List String))
  | OptionSpec.arguments a => some a
  | _ => none

/-- The flag set of a `WithFlagSet` option. -/
def OptionSpec.pickFlagSet : OptionSpec V → Option (FlagSet V)
  | OptionSpec.flagSet fs => some fs
  | _ => none

/-- The toggle of a `WithShowInUsage` option. -/
def OptionSpec.pickShowInUsage : OptionSpec V → Option Bool
  | OptionSpec.showInUsage b => some b
  | _ => none

/-- The callback of a `withExit` option. -/
def OptionSpec.pickExit : OptionSpec V → Option (Int → ExitResult)
  | OptionSpec.exit e => some e
  | _ => none

/-- The configuration with which `configFor` starts: the defaults. -/
def defaultConfig (h : Host V) : config V :=
  { flagSet := h.CommandLine
    showInUsage := true
    mapper := defaultMapper h.upperTable
    exit := osExit
    arguments := some h.Args.tail }

/-- The text that `setValuesFromEnv` writes when the flag `name` cannot be set to `value`:
`"Unable to set flag %s value to %s from environment: %v\n"`. -/
def diagnostic (name value err : String) : String :=
  "Unable to set flag " ++ name ++ " value to " ++ value ++ " from environment: " ++ err ++ "\n"

/-- The statuses the exit callback was called with, in the order of the calls. -/
def exitCodes (log : List Event) : List Int :=
  log.filterMap (fun e => match e with
    | Event.exit code => some code
    | _ => none)

/-- Whether an event is the call of `FlagSet.Parse`. -/
def Event.isParse : Event → Bool
  | Event.parse _ => true
  | _ => false

/-- The events of the argument-parse step: those from the call of `FlagSet.Parse` on. -/
def argEvents (log : List Event) : List Event :=
  log.dropWhile (fun e => !e.isParse)

/-- The text of the last call of `Value.Set` on the flag `n` among the events, if there
is one. -/
def lastSet (n : String) : List Event → Option String
  | [] => none
  | e :: rest =>
    match lastSet n rest with
    | some s => some s
    | none =>
      match e with
      | Event.valueSet m s _ => if m = n then some s else none
      | _ => none

/-- The run of `Parse` up to the call of `c.flagSet.Parse`, for the configuration `c`
returned by `configFor`: the usage annotation, if enabled, and the environment step. -/
def afterEnv (h : Host V) (c : config V) : Run V :=
  setValuesFromEnv h c (if c.showInUsage then updateUsage c (startRun c) else startRun c)

/-- The run with the declared flags replaced by `flags`. -/
def Run.withFormal (r : Run V) (flags : List (Flag V)) : Run V :=
  { r with flagSet := { r.flagSet with formal := flags } }

/-- A declared flag as `Parse` hands it to the environment step: annotated by
`updateUsage` if the usage annotation is enabled. -/
def prepare (c : config V) (f : Flag V) : Flag V :=
  if c.showInUsage then annotate c f else f

/-- The run that `Parse` hands to the environment step. -/
def preparedRun (c : config V) : Run V :=
  (startRun c).withFormal (c.flagSet.formal.map (prepare c))

/-- The flag `f` has its variable for itself among the flags `flags`: every flag of the
list that points to the variable of `f` has the name of `f`. -/
def Flag.Unshared (f : Flag V) (flags : List (Flag V)) : Prop :=
  ∀ g ∈ flags, g.Value = f.Value → g.Name = f.Name

/-- The events of the environment step on flags with the names `names`: no call of
`FlagSet.Parse`; the environment is looked up under the mapped name of one of the flags; a
setter is called on one of the flags, with the content of the variable of that flag; the
exit callback is called with status 2. -/
def EnvEvent (h : Host V) (c : config V) (names : List String) (e : Event) : Prop :=
  e.isParse = false ∧ (∀ x, e = Event.lookupEnv x → ∃ n ∈ names, x = c.mapper n) ∧
    (∀ m s err, e = Event.valueSet m s err → m ∈ names ∧ h.LookupEnv (c.mapper m) = some s) ∧
    (∀ code, e = Event.exit code → code = 2)

/-- The run `r2` continues the run `r1` by the events `evs`: the declared flags, the
error handling and the field `Usage` are as before, and a variable has changed only if
the setter of a flag that points to it was called among `evs`. -/
def Tracks (r1 r2 : Run V) (evs : List Event) : Prop :=
  r2.log = r1.log ++ evs ∧ r2.flagSet.formal = r1.flagSet.formal ∧
    r2.flagSet.errorHandling = r1.flagSet.errorHandling ∧
    r2.flagSet.Usage = r1.flagSet.Usage ∧
    ∀ p, (∀ m s err, Event.valueSet m s err ∈ evs →
        ∀ g, r1.flagSet.lookup m = some g → g.Value ≠ p) →
      r2.flagSet.vars p = r1.flagSet.vars p

/-- The two ways in which a call of `parseOne` on the run `r` ends: without a call of a
setter (the flags and the variables are as before, at most diagnostics are written), or
with a call of the setter of a declared flag, which either succeeds (an argument has been
consumed and a flag was seen) or is rejected (a diagnostic is written and an error is
returned). -/
def ParseOneResult (r : Run V) (res : Bool × Option FlagError × Run V) : Prop :=
  res.2.2.halted = r.halted ∧ res.2.2.flagSet.errorHandling = r.flagSet.errorHandling ∧
  res.2.2.flagSet.Usage = r.flagSet.Usage ∧ res.2.2.flagSet.formal = r.flagSet.formal ∧
  ((res.1 = false ∧ res.2.2.flagSet.vars = r.flagSet.vars ∧
      ∃ evs, res.2.2.log = r.log ++ evs ∧ ∀ e ∈ evs, e = Event.usage ∨ ∃ t, e = Event.write t) ∨
    (∃ flag value, r.flagSet.lookup flag.Name = some flag ∧
      res.2.2.flagSet.vars =
        Function.update r.flagSet.vars flag.Value (flag.Set (r.flagSet.vars flag.Value) value).1 ∧
      (((flag.Set (r.flagSet.vars flag.Value) value).2 = none ∧ res.1 = true ∧ res.2.1 = none ∧
          res.2.2.flagSet.args.length < r.flagSet.args.length ∧
          res.2.2.log = r.log ++ [Event.valueSet flag.Name value none]) ∨
        (∃ e msg, (flag.Set (r.flagSet.vars flag.Value) value).2 = some e ∧ res.1 = false ∧
          res.2.1 = some (FlagError.failure msg) ∧
          res.2.2.log = r.log ++
            [Event.valueSet flag.Name value (some e), Event.write (msg ++ "\n"), Event.usage]))))



/-! ## The default mapper -/

theorem replaceLoop_single (a b : Char) (cs : List Char) :
    replaceLoop [a] [b] 0 cs = cs.map (fun c => if c = a then b else c) := by
  induction cs with
  | nil => rfl
  | cons c cs ih =>
    by_cases h : c = a
    · subst h
      simp [replaceLoop, ih]
    · have h' : ¬ a = c := fun e => h e.symm
      simp [replaceLoop, ih, h, h']

theorem ReplaceAll_single (s old new : String) (a b : Char)
    (ho : old.data = [a]) (hn : new.data = [b]) :
    (ReplaceAll s old new).data = s.data.map (fun c => if c = a then b else c) := by
  unfold ReplaceAll
  rw [if_neg (by simp [ho]), ho, hn]
  exact replaceLoop_single a b s.data

theorem ascii_upper_facts : ∀ n : Fin 128,
    unicodeToUpper id (Char.ofNat n.val) = (Char.ofNat n.val).toUpper ∧
    ((Char.ofNat n.val).toUpper = '-' ↔ Char.ofNat n.val = '-') ∧
    ((Char.ofNat n.val).toUpper = '.' ↔ Char.ofNat n.val = '.') := by
  decide

theorem unicodeToUpper_ascii (tbl : Char → Char) (c : Char) (hc : c.toNat ≤ 0x7F) :
    unicodeToUpper tbl c = c.toUpper ∧ (c.toUpper = '-' ↔ c = '-') ∧
      (c.toUpper = '.' ↔ c = '.') := by
  have h1 : unicodeToUpper tbl c = unicodeToUpper id c := by
    unfold unicodeToUpper
    rw [if_pos hc, if_pos hc]
  have h2 := ascii_upper_facts ⟨c.toNat, by omega⟩
  simp only [Char.ofNat_toNat] at h2
  rw [h1]
  exact h2

theorem defaultMapper_data (tbl : Char → Char) (s : String) :
    (defaultMapper tbl s).data =
      (ToUpper tbl s).data.map (fun u => if u = '-' ∨ u = '.' then '_' else u) := by
  unfold defaultMapper
  rw [ReplaceAll_single _ "." "_" '.' '_' rfl rfl, ReplaceAll_single _ "-" "_" '-' '_' rfl rfl,
    List.map_map]
  apply List.map_congr_left
  intro u _
  by_cases h1 : u = '-'
  · subst h1
    decide
  · by_cases h2 : u = '.'
    · subst h2
      decide
    · simp [h1, h2]

/-- C4: `defaultMapper s` is the uppercased `s` with every dash and every period
replaced by an underscore; hence the result contains neither `-` nor `.`, and for an
ASCII name it has the length of `s`, with `_` at the positions where `s` has `-` or
`.` and the (ASCII) uppercase of the rune of `s` at the other positions. -/
theorem defaultMapper_spec (tbl : Char → Char) (s : String) :
    (defaultMapper tbl s).data =
        (ToUpper tbl s).data.map (fun u => if u = '-' ∨ u = '.' then '_' else u) ∧
      '-' ∉ (defaultMapper tbl s).data ∧ '.' ∉ (defaultMapper tbl s).data ∧
      ((∀ c ∈ s.data, c.toNat ≤ 0x7F) →
        (defaultMapper tbl s).length = s.length ∧
        ∀ i : Nat, ∀ hi : i < s.data.length,
          (defaultMapper tbl s).data[i]? =
            some (if s.data[i] = '-' ∨ s.data[i] = '.' then '_' else s.data[i].toUpper)) := by
  refine ⟨defaultMapper_data tbl s, ?_, ?_, ?_⟩
  · rw [defaultMapper_data]
    intro h
    obtain ⟨u, _, hu⟩ := List.mem_map.1 h
    by_cases h1 : u = '-' ∨ u = '.'
    · rw [if_pos h1] at hu
      exact absurd hu (by decide)
    · rw [if_neg h1] at hu
      exact h1 (Or.inl hu)
  · rw [defaultMapper_data]
    intro h
    obtain ⟨u, _, hu⟩ := List.mem_map.1 h
    by_cases h1 : u = '-' ∨ u = '.'
    · rw [if_pos h1] at hu
      exact absurd hu (by decide)
    · rw [if_neg h1] at hu
      exact h1 (Or.inr hu)
  · intro hascii
    constructor
    · show (defaultMapper tbl s).data.length = s.data.length
      rw [defaultMapper_data, List.length_map]
      unfold ToUpper
      rw [List.length_map]
    · intro i hi
      have hc := hascii _ (List.getElem_mem hi)
      obtain ⟨e1, e2, e3⟩ := unicodeToUpper_ascii tbl _ hc
      rw [defaultMapper_data]
      have hget : (ToUpper tbl s).data[i]? = some (s.data[i].toUpper) := by
        unfold ToUpper
        rw [List.getElem?_map, List.getElem?_eq_getElem hi, Option.map_some', e1]
      rw [List.getElem?_map, hget, Option.map_some']
      by_cases hd : s.data[i] = '-' ∨ s.data[i] = '.'
      · rw [if_pos hd, if_pos (hd.imp e2.2 e3.2)]
      · rw [if_neg hd, if_neg (fun hu => hd (hu.imp e2.1 e3.1))]

/-- The examples of C4: `my-string` maps to `MY_STRING` and `my.flag` to `MY_FLAG`, and
the general statement gives that `MY_STRING` has no dash. -/
theorem defaultMapper_spec_witness :
    (∀ c ∈ "my-string".data, c.toNat ≤ 0x7F) ∧
      defaultMapper id "my-string" = "MY_STRING" ∧ defaultMapper id "my.flag" = "MY_FLAG" ∧
      (defaultMapper id "my-string").length = "my-string".length :=
  ⟨by decide, by decide, by decide,
    ((defaultMapper_spec id "my-string").2.2.2 (by decide)).1⟩

/-! ## The configuration -/

theorem applyOptions_specs (specs : List (OptionSpec V)) (c : config V) :
    ∃ c', applyOptions (specs.map OptionSpec.toOption) c = Except.ok c' ∧
      (∀ s, c'.mapper s = (prefixesOf specs).foldl (fun acc p => p ++ acc) (c.mapper s)) ∧
      c'.arguments = (lastPick OptionSpec.pickArguments specs).getD c.arguments ∧
      c'.flagSet = (lastPick OptionSpec.pickFlagSet specs).getD c.flagSet ∧
      c'.showInUsage = (lastPick OptionSpec.pickShowInUsage specs).getD c.showInUsage ∧
      c'.exit = (lastPick OptionSpec.pickExit specs).getD c.exit := by
  induction specs generalizing c with
  | nil => exact ⟨c, rfl, fun _ => rfl, rfl, rfl, rfl, rfl⟩
  | cons o rest ih =>
    cases o with
    | flagSet fs =>
      obtain ⟨c', h0, h1, h2, h3, h4, h5⟩ := ih { c with flagSet := fs }
      refine ⟨c', h0, h1, ?_, ?_, ?_, ?_⟩
      · rw [h2]; simp only [lastPick]
        cases lastPick OptionSpec.pickArguments rest <;> rfl
      · rw [h3]; simp only [lastPick]
        cases lastPick OptionSpec.pickFlagSet rest <;> rfl
      · rw [h4]; simp only [lastPick]
        cases lastPick OptionSpec.pickShowInUsage rest <;> rfl
      · rw [h5]; simp only [lastPick]
        cases lastPick OptionSpec.pickExit rest <;> rfl
    | showInUsage b =>
      obtain ⟨c', h0, h1, h2, h3, h4, h5⟩ := ih { c with showInUsage := b }
      refine ⟨c', h0, h1, ?_, ?_, ?_, ?_⟩
      · rw [h2]; simp only [lastPick]
        cases lastPick OptionSpec.pickArguments rest <;> rfl
      · rw [h3]; simp only [lastPick]
        cases lastPick OptionSpec.pickFlagSet rest <;> rfl
      · rw [h4]; simp only [lastPick]
        cases lastPick OptionSpec.pickShowInUsage rest <;> rfl
      · rw [h5]; simp only [lastPick]
        cases lastPick OptionSpec.pickExit rest <;> rfl
    | withPrefix p =>
      obtain ⟨c', h0, h1, h2, h3, h4, h5⟩ := ih { c with mapper := fun s => p ++ c.mapper s }
      refine ⟨c', h0, h1, ?_, ?_, ?_, ?_⟩
      · rw [h2]; simp only [lastPick]
        cases lastPick OptionSpec.pickArguments rest <;> rfl
      · rw [h3]; simp only [lastPick]
        cases lastPick OptionSpec.pickFlagSet rest <;> rfl
      · rw [h4]; simp only [lastPick]
        cases lastPick OptionSpec.pickShowInUsage rest <;> rfl
      · rw [h5]; simp only [lastPick]
        cases lastPick OptionSpec.pickExit rest <;> rfl
    | arguments a =>
      obtain ⟨c', h0, h1, h2, h3, h4, h5⟩ := ih { c with arguments := a }
      refine ⟨c', h0, h1, ?_, ?_, ?_, ?_⟩
      · rw [h2]; simp only [lastPick]
        cases lastPick OptionSpec.pickArguments rest <;> rfl
      · rw [h3]; simp only [lastPick]
        cases lastPick OptionSpec.pickFlagSet rest <;> rfl
      · rw [h4]; simp only [lastPick]
        cases lastPick OptionSpec.pickShowInUsage rest <;> rfl
      · rw [h5]; simp only [lastPick]
        cases lastPick OptionSpec.pickExit rest <;> rfl
    | exit e =>
      obtain ⟨c', h0, h1, h2, h3, h4, h5⟩ := ih { c with exit := e }
      refine ⟨c', h0, h1, ?_, ?_, ?_, ?_⟩
      · rw [h2]; simp only [lastPick]
        cases lastPick OptionSpec.pickArguments rest <;> rfl
      · rw [h3]; simp only [lastPick]
        cases lastPick OptionSpec.pickFlagSet rest <;> rfl
      · rw [h4]; simp only [lastPick]
        cases lastPick OptionSpec.pickShowInUsage rest <;> rfl
      · rw [h5]; simp only [lastPick]
        cases lastPick OptionSpec.pickExit rest <;> rfl

theorem configFor_of_args {h : Host V} {a : String} {args : List String}
    (ha : h.Args = a :: args) (opts : List (OptionFn V)) :
    configFor h opts = applyOptions opts (defaultConfig h) := by
  unfold configFor defaultConfig
  rw [ha]
  rfl

theorem configFor_args_ne {h : Host V} {opts : List (OptionFn V)} {c : config V}
    (hc : configFor h opts = Except.ok c) : h.Args ≠ [] := by
  intro hn
  unfold configFor at hc
  rw [hn] at hc
  cases hc

/-- The configuration that `configFor` returns for options built by the constructors: it
returns one whenever `os.Args` is not empty. -/
theorem configFor_specs (h : Host V) (specs : List (OptionSpec V)) (hargs : h.Args ≠ []) :
    ∃ c, configFor h (specs.map OptionSpec.toOption) = Except.ok c ∧
      (∀ s, c.mapper s =
        (prefixesOf specs).foldl (fun acc p => p ++ acc) (defaultMapper h.upperTable s)) ∧
      c.arguments = (lastPick OptionSpec.pickArguments specs).getD (some h.Args.tail) ∧
      c.flagSet = (lastPick OptionSpec.pickFlagSet specs).getD h.CommandLine ∧
      c.showInUsage = (lastPick OptionSpec.pickShowInUsage specs).getD true ∧
      c.exit = (lastPick OptionSpec.pickExit specs).getD osExit := by
  obtain ⟨a, args, ha⟩ := List.exists_cons_of_ne_nil hargs
  rw [configFor_of_args ha]
  exact applyOptions_specs specs (defaultConfig h)

/-- C5: the mapper resolved by `configFor` sends `s` to `p_n ++ ... ++ p_1 ++
defaultMapper s`, where `p_1, ..., p_n` are the prefixes of the `WithPrefix` options in
the order supplied (each prefix is put in front of what the earlier options give); the
other options do not change the mapper, a single `WithPrefix "PREFIX_"` maps
`my-string` to `PREFIX_MY_STRING`, and without `WithPrefix` the mapper is the default
mapper.  This holds of every configuration that `configFor` returns, and it returns one
for every sequence of options built by the constructors when `os.Args` is not empty. -/
theorem configFor_mapper (h : Host V) (specs : List (OptionSpec V)) (s : String) :
    (∀ c, configFor h (specs.map OptionSpec.toOption) = Except.ok c →
        c.mapper s =
          (prefixesOf specs).foldl (fun acc p => p ++ acc) (defaultMapper h.upperTable s) ∧
        (prefixesOf specs = [] → c.mapper s = defaultMapper h.upperTable s)) ∧
      (h.Args ≠ [] → ∃ c, configFor h (specs.map OptionSpec.toOption) = Except.ok c) ∧
      (∃ c, configFor (hostOf []) [WithPrefix "PREFIX_"] = Except.ok c ∧
        c.mapper "my-string" = "PREFIX_MY_STRING") := by
  refine ⟨?_, ?_, ⟨_, rfl, by decide⟩⟩
  · intro c hc
    obtain ⟨c', h0, h1, _⟩ := configFor_specs h specs (configFor_args_ne hc)
    rw [hc] at h0
    cases h0
    refine ⟨h1 s, ?_⟩
    intro hp
    have := h1 s
    rw [hp] at this
    exact this
  · intro hargs
    obtain ⟨c, h0, _⟩ := configFor_specs h specs hargs
    exact ⟨c, h0⟩

/-- The examples of C5: two prefixes nest with the later one in front, options of other
kinds in between change nothing, and no prefix leaves the default mapper. -/
theorem configFor_mapper_witness :
    (∃ c, configFor (hostOf []) ([OptionSpec.withPrefix "A_", OptionSpec.showInUsage false,
          OptionSpec.withPrefix "B_"].map OptionSpec.toOption) = Except.ok c ∧
        c.mapper "my-string" = "B_A_MY_STRING") ∧
      (∃ c, configFor (hostOf []) ([OptionSpec.arguments (some [])].map OptionSpec.toOption) =
          Except.ok c ∧
        c.mapper "my.flag" = defaultMapper id "my.flag") :=
  ⟨⟨_, rfl, (((configFor_mapper (hostOf []) [OptionSpec.withPrefix "A_",
      OptionSpec.showInUsage false, OptionSpec.withPrefix "B_"] "my-string").1 _ rfl).1).trans
      (by decide)⟩,
   ⟨_, rfl, ((configFor_mapper (hostOf []) [OptionSpec.arguments (some [])] "my.flag").1
      _ rfl).2 rfl⟩⟩

/-! ## The map of the declared flags -/

theorem lookup_name {fs : FlagSet V} {n : String} {f : Flag V} (hf : fs.lookup n = some f) :
    f.Name = n ∧ f ∈ fs.formal := by
  unfold FlagSet.lookup at hf
  have h1 := List.find?_some hf
  have h2 := List.mem_of_find?_eq_some hf
  exact ⟨by simpa using h1, h2⟩

theorem find_name_cons_pos {a : Flag V} {n : String} (l : List (Flag V)) (h : a.Name = n) :
    (a :: l).find? (fun f => f.Name == n) = some a := by
  simp [List.find?_cons, h]

theorem find_name_cons_neg {a : Flag V} {n : String} (l : List (Flag V)) (h : a.Name ≠ n) :
    (a :: l).find? (fun f => f.Name == n) = l.find? (fun f => f.Name == n) := by
  simp [List.find?_cons, h]

theorem find_map_name (l : List (Flag V)) (g : Flag V → Flag V) (hg : ∀ f, (g f).Name = f.Name)
    (n : String) :
    (l.map g).find? (fun f => f.Name == n) = (l.find? (fun f => f.Name == n)).map g := by
  induction l with
  | nil => rfl
  | cons a l ih =>
    by_cases h : a.Name = n
    · rw [List.map_cons, find_name_cons_pos _ ((hg a).trans h), find_name_cons_pos _ h]
      rfl
    · rw [List.map_cons, find_name_cons_neg _ (fun e => h ((hg a).symm.trans e)),
        find_name_cons_neg _ h, ih]

theorem lookup_of_mem_nodup {fs : FlagSet V} (hnd : (fs.formal.map Flag.Name).Nodup)
    {f : Flag V} (hf : f ∈ fs.formal) : fs.lookup f.Name = some f := by
  unfold FlagSet.lookup
  generalize fs.formal = l at hnd hf
  induction l with
  | nil => cases hf
  | cons a l ih =>
    rw [List.map_cons, List.nodup_cons] at hnd
    rcases List.mem_cons.1 hf with rfl | hmem
    · exact find_name_cons_pos _ rfl
    · have hne : a.Name ≠ f.Name := by
        intro e
        exact hnd.1 (e ▸ List.mem_map_of_mem Flag.Name hmem)
      rw [find_name_cons_neg _ hne]
      exact ih hnd.2 hmem

/-! ## The order of the visit -/

theorem insertFlag_perm (f : Flag V) (l : List (Flag V)) : (insertFlag f l).Perm (f :: l) := by
  induction l with
  | nil => exact List.Perm.refl _
  | cons g gs ih =>
    unfold insertFlag
    split
    · exact List.Perm.refl _
    · exact (List.Perm.cons g ih).trans (List.Perm.swap f g gs)

theorem sortFlags_perm (l : List (Flag V)) : (sortFlags l).Perm l := by
  induction l with
  | nil => exact List.Perm.refl _
  | cons f l ih =>
    show (insertFlag f (sortFlags l)).Perm (f :: l)
    exact (insertFlag_perm f _).trans (List.Perm.cons f ih)

theorem mem_sortFlags {l : List (Flag V)} {f : Flag V} : f ∈ sortFlags l ↔ f ∈ l :=
  (sortFlags_perm l).mem_iff

theorem sortFlags_nodup {l : List (Flag V)} (h : (l.map Flag.Name).Nodup) :
    ((sortFlags l).map Flag.Name).Nodup :=
  ((sortFlags_perm l).map Flag.Name).nodup_iff.2 h

/-! ## The last call of a setter among events -/

theorem lastSet_none_mem {n : String} {evs : List Event} (h : lastSet n evs = none)
    (s : String) (err : Option String) : Event.valueSet n s err ∉ evs := by
  induction evs with
  | nil => simp
  | cons e evs ih =>
    have hrest : lastSet n evs = none := by
      cases hr : lastSet n evs with
      | none => rfl
      | some t =>
        simp only [lastSet, hr] at h
        cases h
    intro hmem
    rcases List.mem_cons.1 hmem with heq | hmem'
    · subst heq
      simp [lastSet, hrest] at h
    · exact ih hrest hmem'

/-! ## Runs that continue a run -/

theorem Tracks.refl (r : Run V) : Tracks r r [] :=
  ⟨by simp, rfl, rfl, rfl, fun _ _ => rfl⟩

theorem Tracks.lookup {r1 r2 : Run V} {evs : List Event} (h : Tracks r1 r2 evs) (n : String) :
    r2.flagSet.lookup n = r1.flagSet.lookup n := by
  unfold FlagSet.lookup
  rw [h.2.1]

theorem Tracks.trans {r1 r2 r3 : Run V} {e1 e2 : List Event} (h1 : Tracks r1 r2 e1)
    (h2 : Tracks r2 r3 e2) : Tracks r1 r3 (e1 ++ e2) := by
  refine ⟨by rw [h2.1, h1.1, List.append_assoc], h2.2.1.trans h1.2.1,
    h2.2.2.1.trans h1.2.2.1, h2.2.2.2.1.trans h1.2.2.2.1, ?_⟩
  intro p hp
  rw [h2.2.2.2.2 p (fun m s err hm g hg =>
      hp m s err (List.mem_append_right _ hm) g (by rw [← h1.lookup]; exact hg)),
    h1.2.2.2.2 p (fun m s err hm g hg => hp m s err (List.mem_append_left _ hm) g hg)]

theorem Tracks.of_same {r1 r2 : Run V} {evs : List Event} (hl : r2.log = r1.log ++ evs)
    (hf : r2.flagSet.formal = r1.flagSet.formal)
    (he : r2.flagSet.errorHandling = r1.flagSet.errorHandling)
    (hu : r2.flagSet.Usage = r1.flagSet.Usage)
    (hv : r2.flagSet.vars = r1.flagSet.vars) : Tracks r1 r2 evs :=
  ⟨hl, hf, he, hu, fun _ _ => by rw [hv]⟩

theorem Tracks.of_update {r1 r2 : Run V} {flag : Flag V} {x : V} {evs : List Event}
    {value : String} {err : Option String}
    (hlook : r1.flagSet.lookup flag.Name = some flag)
    (hl : r2.log = r1.log ++ evs)
    (hf : r2.flagSet.formal = r1.flagSet.formal)
    (he : r2.flagSet.errorHandling = r1.flagSet.errorHandling)
    (hu : r2.flagSet.Usage = r1.flagSet.Usage)
    (hv : r2.flagSet.vars = Function.update r1.flagSet.vars flag.Value x)
    (hmem : Event.valueSet flag.Name value err ∈ evs) : Tracks r1 r2 evs := by
  refine ⟨hl, hf, he, hu, ?_⟩
  intro p hp
  have hne : flag.Value ≠ p := hp _ _ _ hmem flag hlook
  rw [hv, Function.update_noteq (fun e => hne e.symm)]

/-- A variable that a flag has for itself changes only by a call of the setter of that
flag. -/
theorem Tracks.vars_of_unshared {r1 r2 : Run V} {evs : List Event} (h : Tracks r1 r2 evs)
    {n : String} {f : Flag V} (hf : r1.flagSet.lookup n = some f)
    (hu : f.Unshared r1.flagSet.formal) (hn : lastSet n evs = none) :
    r2.flagSet.vars f.Value = r1.flagSet.vars f.Value := by
  apply h.2.2.2.2
  intro m s err hm g hg hv
  have hgn := lookup_name hg
  have hfn := lookup_name hf
  have : m = n := by rw [← hgn.1, hu g hgn.2 hv, hfn.1]
  subst this
  exact lastSet_none_mem hn s err hm

theorem Tracks.valueOf_of_unshared {r1 r2 : Run V} {evs : List Event} (h : Tracks r1 r2 evs)
    {n : String} {f : Flag V} (hf : r1.flagSet.lookup n = some f)
    (hu : f.Unshared r1.flagSet.formal) (hn : lastSet n evs = none) :
    r2.flagSet.valueOf n = r1.flagSet.valueOf n := by
  unfold FlagSet.valueOf
  rw [h.lookup, hf]
  show some (r2.flagSet.vars f.Value) = some (r1.flagSet.vars f.Value)
  rw [h.vars_of_unshared hf hu hn]

theorem lastSet_none_of_names {n : String} {evs : List Event}
    (h : ∀ e ∈ evs, ∀ m s err, e = Event.valueSet m s err → m ≠ n) : lastSet n evs = none := by
  induction evs with
  | nil => rfl
  | cons e evs ih =>
    have h1 := ih (fun e he => h e (List.mem_cons_of_mem _ he))
    have h2 := h e (List.mem_cons_self _ _)
    cases e with
    | valueSet m s err =>
      have := h2 m s err rfl
      simp [lastSet, h1, this]
    | _ => simp [lastSet, h1]
/-! ## The argument parser of `flag` -/

theorem usage_eq (r : Run V) : FlagSet.usage r = r.emit Event.usage := by
  unfold FlagSet.usage
  cases r.flagSet.Usage <;> rfl

theorem setOrFail_spec (flag : Flag V) (value : String) (msg : String → String) (name : String)
    (r : Run V) :
    (setOrFail flag value msg name r).2.2.halted = r.halted ∧
    (setOrFail flag value msg name r).2.2.flagSet.errorHandling = r.flagSet.errorHandling ∧
    (setOrFail flag value msg name r).2.2.flagSet.Usage = r.flagSet.Usage ∧
    (setOrFail flag value msg name r).2.2.flagSet.args = r.flagSet.args ∧
    (setOrFail flag value msg name r).2.2.flagSet.formal = r.flagSet.formal ∧
    (setOrFail flag value msg name r).2.2.flagSet.vars =
      Function.update r.flagSet.vars flag.Value (flag.Set (r.flagSet.vars flag.Value) value).1 ∧
    (((flag.Set (r.flagSet.vars flag.Value) value).2 = none ∧
        (setOrFail flag value msg name r).1 = true ∧
        (setOrFail flag value msg name r).2.1 = none ∧
        (setOrFail flag value msg name r).2.2.log =
          r.log ++ [Event.valueSet flag.Name value none]) ∨
      (∃ e, (flag.Set (r.flagSet.vars flag.Value) value).2 = some e ∧
        (setOrFail flag value msg name r).1 = false ∧
        (setOrFail flag value msg name r).2.1 = some (FlagError.failure (msg e)) ∧
        (setOrFail flag value msg name r).2.2.log =
          r.log ++ [Event.valueSet flag.Name value (some e), Event.write (msg e ++ "\n"),
            Event.usage])) := by
  unfold setOrFail valueSet
  cases h : (flag.Set (r.flagSet.vars flag.Value) value).2 with
  | some e => simp [failf, usage_eq, Run.emit]
  | none => simp [Run.emit, FlagSet.markActual]

theorem ParseOneResult.of_setOrFail {r r0 : Run V} (flag : Flag V) (value : String)
    (msg : String → String) (name : String)
    (hlook : r0.flagSet.lookup flag.Name = some flag)
    (hh : r.halted = r0.halted) (he : r.flagSet.errorHandling = r0.flagSet.errorHandling)
    (hu : r.flagSet.Usage = r0.flagSet.Usage)
    (hf : r.flagSet.formal = r0.flagSet.formal) (hv : r.flagSet.vars = r0.flagSet.vars)
    (hl : r.log = r0.log)
    (ha : r.flagSet.args.length < r0.flagSet.args.length) :
    ParseOneResult r0 (setOrFail flag value msg name r) := by
  obtain ⟨h1, h2, hu2, h3, h4, hv2, h5⟩ := setOrFail_spec flag value msg name r
  rw [hv] at hv2 h5
  refine ⟨h1.trans hh, h2.trans he, hu2.trans hu, h4.trans hf,
    Or.inr ⟨flag, value, hlook, hv2, ?_⟩⟩
  rcases h5 with ⟨hv, a1, a2, a4⟩ | ⟨e, hv, a1, a2, a4⟩
  · exact Or.inl ⟨hv, a1, a2, by rw [h3]; exact ha, by rw [a4, hl]⟩
  · exact Or.inr ⟨e, msg e, hv, a1, a2, by rw [a4, hl]⟩

theorem ParseOneResult.of_failf (r0 r : Run V) (msg : String)
    (hh : r.halted = r0.halted) (he : r.flagSet.errorHandling = r0.flagSet.errorHandling)
    (hu : r.flagSet.Usage = r0.flagSet.Usage)
    (hf : r.flagSet.formal = r0.flagSet.formal) (hv : r.flagSet.vars = r0.flagSet.vars)
    (hl : r.log = r0.log) :
    ParseOneResult r0 (failf msg r) := by
  refine ⟨?_, ?_, ?_, ?_, Or.inl ⟨rfl, ?_, [Event.write (msg ++ "\n"), Event.usage], ?_, ?_⟩⟩
  · simpa [failf, usage_eq, Run.emit] using hh
  · simpa [failf, usage_eq, Run.emit] using he
  · simpa [failf, usage_eq, Run.emit] using hu
  · simpa [failf, usage_eq, Run.emit] using hf
  · simpa [failf, usage_eq, Run.emit] using hv
  · simp [failf, usage_eq, Run.emit, hl]
  · intro e he
    simp at he
    rcases he with rfl | rfl
    · exact Or.inr ⟨_, rfl⟩
    · exact Or.inl rfl

theorem parseOne_spec (r : Run V) : ParseOneResult r (parseOne r) := by
  unfold parseOne
  split
  · exact ⟨rfl, rfl, rfl, rfl, Or.inl ⟨rfl, rfl, [], by simp, by simp⟩⟩
  · rename_i s rest hargs
    have hlen : rest.length < r.flagSet.args.length := by rw [hargs]; simp
    dsimp only
    generalize (if s.data.get? 1 = some '-' then 2 else 1) = k
    by_cases h1 : s.data.length < 2 ∨ s.data.head? ≠ some '-'
    · rw [if_pos h1]
      exact ⟨rfl, rfl, rfl, rfl, Or.inl ⟨rfl, rfl, [], by simp, by simp⟩⟩
    · rw [if_neg h1]
      by_cases h2 : k = 2 ∧ s.data.length = 2
      · rw [if_pos h2]
        exact ⟨rfl, rfl, rfl, rfl, Or.inl ⟨rfl, rfl, [], by simp, by simp⟩⟩
      · rw [if_neg h2]
        by_cases h3 : (List.drop k s.data).length = 0 ∨ (List.drop k s.data).head? = some '-' ∨
            (List.drop k s.data).head? = some '='
        · rw [if_pos h3]
          exact ParseOneResult.of_failf r r _ rfl rfl rfl rfl rfl rfl
        · rw [if_neg h3]
          generalize (⟨(splitName (List.drop k s.data)).1⟩ : String) = name
          generalize Option.map String.mk (splitName (List.drop k s.data)).2 = given
          split
          · split
            · exact ⟨by rw [usage_eq]; rfl, by rw [usage_eq]; rfl, by rw [usage_eq]; rfl,
                by rw [usage_eq]; rfl,
                Or.inl ⟨rfl, by rw [usage_eq]; rfl, [Event.usage], by rw [usage_eq]; rfl, by simp⟩⟩
            · exact ParseOneResult.of_failf r _ _ rfl rfl rfl rfl rfl rfl
          · rename_i flag hlook
            have hn := (lookup_name hlook).1
            have hlook' : r.flagSet.lookup flag.Name = some flag := by rw [hn]; exact hlook
            split
            · split
              · exact ParseOneResult.of_setOrFail flag _ _ _ hlook' rfl rfl rfl rfl rfl rfl hlen
              · exact ParseOneResult.of_setOrFail flag _ _ _ hlook' rfl rfl rfl rfl rfl rfl hlen
            · split
              · exact ParseOneResult.of_failf r _ _ rfl rfl rfl rfl rfl rfl
              · refine ParseOneResult.of_setOrFail flag _ _ _ hlook' rfl rfl rfl rfl rfl rfl ?_
                rw [hargs]
                simp only [List.length_cons]
                omega
              · exact ParseOneResult.of_setOrFail flag _ _ _ hlook' rfl rfl rfl rfl rfl rfl hlen

theorem ParseOneResult.tracks {r : Run V} {res : Bool × Option FlagError × Run V}
    (h : ParseOneResult r res) :
    ∃ evs, Tracks r res.2.2 evs ∧
      ∀ e ∈ evs, e = Event.usage ∨ (∃ t, e = Event.write t) ∨ ∃ m s err, e = Event.valueSet m s err := by
  obtain ⟨_, he, hu, hf, h | ⟨flag, value, hlook, hv, h⟩⟩ := h
  · obtain ⟨_, hv, evs, hl, hq⟩ := h
    refine ⟨evs, Tracks.of_same hl hf he hu hv, ?_⟩
    intro e hmem
    rcases hq e hmem with rfl | ⟨t, rfl⟩
    · exact Or.inl rfl
    · exact Or.inr (Or.inl ⟨t, rfl⟩)
  · rcases h with ⟨_, _, _, _, hl⟩ | ⟨e, msg, _, _, _, hl⟩
    · refine ⟨_, Tracks.of_update hlook hl hf he hu hv (List.mem_cons_self _ _), ?_⟩
      intro e hmem
      simp at hmem
      exact Or.inr (Or.inr ⟨_, _, _, hmem⟩)
    · refine ⟨_, Tracks.of_update hlook hl hf he hu hv (List.mem_cons_self _ _), ?_⟩
      intro e hmem
      simp at hmem
      rcases hmem with rfl | rfl | rfl
      · exact Or.inr (Or.inr ⟨_, _, _, rfl⟩)
      · exact Or.inr (Or.inl ⟨_, rfl⟩)
      · exact Or.inl rfl

theorem parseLoop_spec (fuel : Nat) (r : Run V) :
    ∃ evs, Tracks r (parseLoop fuel r).2 evs ∧
      (∀ e ∈ evs, e = Event.usage ∨ (∃ t, e = Event.write t) ∨
        (∃ m s err, e = Event.valueSet m s err) ∨ (∃ c, e = Event.osExit c) ∨
        ∃ m, e = Event.panic m) ∧
      ((parseLoop fuel r).2.halted = false → r.halted = false) ∧
      (∀ err, (parseLoop fuel r).1 = some err → (parseLoop fuel r).2.halted = r.halted) := by
  induction fuel generalizing r with
  | zero => exact ⟨[], Tracks.refl r, by simp, fun h => h, fun _ _ => rfl⟩
  | succ fuel ih =>
    have hone := parseOne_spec r
    obtain ⟨evs1, ht1, hq1⟩ := hone.tracks
    have hhalt1 := hone.1
    have evs1_ok : ∀ e ∈ evs1, e = Event.usage ∨ (∃ t, e = Event.write t) ∨
        (∃ m s err, e = Event.valueSet m s err) ∨ (∃ c, e = Event.osExit c) ∨
        ∃ m, e = Event.panic m := by
      intro e he
      rcases hq1 e he with h | h | h
      · exact Or.inl h
      · exact Or.inr (Or.inl h)
      · exact Or.inr (Or.inr (Or.inl h))
    unfold parseLoop
    rcases hres : parseOne r with ⟨seen, err, r1⟩
    rw [hres] at ht1 hhalt1
    cases seen with
    | true =>
      obtain ⟨evs2, ht2, hq2, hh2, he2⟩ := ih r1
      refine ⟨evs1 ++ evs2, ht1.trans ht2, ?_, ?_, ?_⟩
      · intro e he
        rcases List.mem_append.1 he with h | h
        · exact evs1_ok e h
        · exact hq2 e h
      · intro h
        exact hhalt1 ▸ hh2 h
      · intro e h
        exact (he2 e h).trans hhalt1
    | false =>
      cases err with
      | none => exact ⟨evs1, ht1, evs1_ok, fun h => hhalt1 ▸ h, fun _ _ => hhalt1⟩
      | some err =>
        dsimp only
        split
        · exact ⟨evs1, ht1, evs1_ok, fun h => hhalt1 ▸ h, fun _ _ => hhalt1⟩
        · refine ⟨evs1 ++ [Event.osExit (if err = FlagError.ErrHelp then 0 else 2)],
            ht1.trans (Tracks.of_same rfl rfl rfl rfl rfl), ?_, by simp, by simp⟩
          intro e he
          rcases List.mem_append.1 he with h | h
          · exact evs1_ok e h
          · simp at h
            exact Or.inr (Or.inr (Or.inr (Or.inl ⟨_, h⟩)))
        · refine ⟨evs1 ++ [Event.panic err.Error],
            ht1.trans (Tracks.of_same rfl rfl rfl rfl rfl), ?_, by simp, by simp⟩
          intro e he
          rcases List.mem_append.1 he with h | h
          · exact evs1_ok e h
          · simp at h
            exact Or.inr (Or.inr (Or.inr (Or.inr ⟨_, h⟩)))

theorem parseLoop_succ (fuel : Nat) (r : Run V) :
    parseLoop (fuel + 1) r =
      match parseOne r with
      | (true, _, r) => parseLoop fuel r
      | (false, none, r) => (none, r)
      | (false, some err, r) =>
        match r.flagSet.errorHandling with
        | .ContinueOnError => (some err, r)
        | .ExitOnError =>
          (none, { r.emit (Event.osExit (if err = FlagError.ErrHelp then 0 else 2)) with
            halted := true })
        | .PanicOnError => (none, { r.emit (Event.panic err.Error) with halted := true }) :=
  rfl

theorem parseLoop_fuel (fuel : Nat) (r : Run V) (h : r.flagSet.args.length < fuel) :
    parseLoop (fuel + 1) r = parseLoop fuel r := by
  induction fuel generalizing r with
  | zero => omega
  | succ k ih =>
    have hone := parseOne_spec r
    rw [parseLoop_succ (k + 1), parseLoop_succ k]
    rcases hres : parseOne r with ⟨seen, err, r1⟩
    rw [hres] at hone
    cases seen with
    | false => cases err <;> rfl
    | true =>
      dsimp only
      apply ih
      rcases hone.2.2.2.2 with h1 | ⟨_, _, _, _, h1 | ⟨_, _, _, h1, _⟩⟩
      · exact absurd h1.1 (by simp)
      · have := h1.2.2.2.1
        dsimp only at this
        omega
      · exact absurd h1 (by simp)

theorem parseLoop_fuel_add (k fuel : Nat) (r : Run V) (h : r.flagSet.args.length < fuel) :
    parseLoop (fuel + k) r = parseLoop fuel r := by
  induction k with
  | zero => rfl
  | succ k ih =>
    rw [← Nat.add_assoc, parseLoop_fuel (fuel + k) r (by omega), ih]

/-- The fuel of `FlagSet.Parse` is never used up: any larger amount gives the same result. -/
theorem FlagSet.Parse_fuel (k : Nat) (arguments : List String) (r : Run V) :
    parseLoop (arguments.length + 1 + k)
      { r.emit (Event.parse arguments) with
        flagSet := { (r.emit (Event.parse arguments)).flagSet with
          parsed := true, args := arguments } } =
      FlagSet.Parse arguments r := by
  unfold FlagSet.Parse
  exact parseLoop_fuel_add k _ _ (Nat.lt_succ_self _)

theorem FlagSet.Parse_spec (arguments : List String) (r : Run V) :
    ∃ evs, Tracks r (FlagSet.Parse arguments r).2 (Event.parse arguments :: evs) ∧
      (∀ e ∈ evs, e = Event.usage ∨ (∃ t, e = Event.write t) ∨
        (∃ m s err, e = Event.valueSet m s err) ∨ (∃ c, e = Event.osExit c) ∨
        ∃ m, e = Event.panic m) ∧
      ((FlagSet.Parse arguments r).2.halted = false → r.halted = false) ∧
      (∀ err, (FlagSet.Parse arguments r).1 = some err →
        (FlagSet.Parse arguments r).2.halted = r.halted) := by
  unfold FlagSet.Parse
  obtain ⟨evs, ht, hq, hh, he⟩ := parseLoop_spec (arguments.length + 1)
    { r.emit (Event.parse arguments) with
      flagSet := { (r.emit (Event.parse arguments)).flagSet with parsed := true, args := arguments } }
  have h0 : Tracks r { r.emit (Event.parse arguments) with
      flagSet := { (r.emit (Event.parse arguments)).flagSet with parsed := true, args := arguments } }
      [Event.parse arguments] :=
    Tracks.of_same rfl rfl rfl rfl rfl
  exact ⟨evs, h0.trans ht, hq, hh, he⟩

/-! ## The usage annotation -/

theorem HasPrefix_append (p u : String) : HasPrefix (p ++ u) p = true := by
  unfold HasPrefix
  rw [String.data_append, List.isPrefixOf_iff_prefix]
  exact List.prefix_append _ _

theorem annotate_of_pos (c : config V) (f : Flag V)
    (h : HasPrefix f.Usage ("[" ++ c.mapper f.Name ++ "] ") = true) : annotate c f = f := by
  unfold annotate
  simp [h]

theorem annotate_of_neg (c : config V) (f : Flag V)
    (h : HasPrefix f.Usage ("[" ++ c.mapper f.Name ++ "] ") = false) :
    annotate c f = { f with Usage := "[" ++ c.mapper f.Name ++ "] " ++ f.Usage } := by
  unfold annotate
  simp [h]

theorem annotate_name (c : config V) (f : Flag V) : (annotate c f).Name = f.Name := by
  cases h : HasPrefix f.Usage ("[" ++ c.mapper f.Name ++ "] ")
  · rw [annotate_of_neg c f h]
  · rw [annotate_of_pos c f h]

theorem annotate_eq (c : config V) (f : Flag V) :
    annotate c f = { f with Usage :=
      (if HasPrefix f.Usage ("[" ++ c.mapper f.Name ++ "] ") = true then f.Usage
       else "[" ++ c.mapper f.Name ++ "] " ++ f.Usage) } := by
  cases h : HasPrefix f.Usage ("[" ++ c.mapper f.Name ++ "] ")
  · rw [annotate_of_neg c f h]
    simp
  · rw [annotate_of_pos c f h]
    simp

theorem annotate_hasPrefix (c : config V) (f : Flag V) :
    HasPrefix (annotate c f).Usage ("[" ++ c.mapper f.Name ++ "] ") = true := by
  cases h : HasPrefix f.Usage ("[" ++ c.mapper f.Name ++ "] ")
  · rw [annotate_of_neg c f h]
    exact HasPrefix_append _ _
  · rw [annotate_of_pos c f h]
    exact h

theorem annotate_idem (c : config V) (f : Flag V) : annotate c (annotate c f) = annotate c f :=
  annotate_of_pos c (annotate c f) (by rw [annotate_name]; exact annotate_hasPrefix c f)

theorem visit_annotate (c : config V) (L : List (Flag V)) (r : Run V) (hr : r.halted = false) :
    visit (annotateFlag c) L r =
      r.withFormal (r.flagSet.formal.map
        (fun f => if f.Name ∈ L.map Flag.Name then annotate c f else f)) := by
  induction L generalizing r with
  | nil =>
    show r = r.withFormal (r.flagSet.formal.map (fun f => if f.Name ∈ [] then annotate c f else f))
    simp [Run.withFormal]
  | cons a L ih =>
    show visit (annotateFlag c) L (if r.halted then r else annotateFlag c a.Name r) = _
    rw [hr]
    simp only [Bool.false_eq_true, if_false]
    rw [ih _ (by exact hr)]
    show r.withFormal (List.map _ (List.map _ r.flagSet.formal)) = _
    rw [List.map_map]
    apply congrArg
    apply List.map_congr_left
    intro f _
    show (if (if (f.Name == a.Name) = true then annotate c f else f).Name ∈ L.map Flag.Name
        then annotate c (if (f.Name == a.Name) = true then annotate c f else f)
        else (if (f.Name == a.Name) = true then annotate c f else f)) =
      if f.Name ∈ (a :: L).map Flag.Name then annotate c f else f
    have hm : f.Name ∈ List.map Flag.Name (a :: L) ↔
        f.Name = a.Name ∨ f.Name ∈ L.map Flag.Name := by
      rw [List.map_cons, List.mem_cons]
    by_cases h1 : f.Name = a.Name
    · have hb : (f.Name == a.Name) = true := by simpa using h1
      rw [if_pos hb, annotate_name, annotate_idem, if_pos (hm.2 (Or.inl h1))]
      split <;> rfl
    · have hb : ¬ (f.Name == a.Name) = true := by simpa using h1
      rw [if_neg hb]
      by_cases h2 : f.Name ∈ L.map Flag.Name
      · rw [if_pos h2, if_pos (hm.2 (Or.inr h2))]
      · rw [if_neg h2, if_neg (fun h => (hm.1 h).elim h1 h2)]

theorem updateUsage_eq (c : config V) (r : Run V) (hr : r.halted = false) :
    updateUsage c r = r.withFormal (r.flagSet.formal.map (annotate c)) := by
  unfold updateUsage VisitAll
  rw [visit_annotate c _ r hr]
  apply congrArg
  apply List.map_congr_left
  intro f hf
  have : f.Name ∈ (sortFlags r.flagSet.formal).map Flag.Name :=
    List.mem_map_of_mem Flag.Name (mem_sortFlags.2 hf)
  rw [if_pos this]

/-! ## The environment step -/

theorem exitCodes_append (a b : List Event) : exitCodes (a ++ b) = exitCodes a ++ exitCodes b := by
  unfold exitCodes
  exact List.filterMap_append _ _ _

theorem setFromEnv_none (h : Host V) (c : config V) (name : String) (r : Run V)
    (henv : h.LookupEnv (c.mapper name) = none) :
    setFromEnv h c name r = r.emit (Event.lookupEnv (c.mapper name)) := by
  unfold setFromEnv
  simp [henv]

theorem setFromEnv_ok (h : Host V) (c : config V) (name : String) (r : Run V) {e : String}
    {flag : Flag V} (henv : h.LookupEnv (c.mapper name) = some e)
    (hlook : r.flagSet.lookup name = some flag)
    (hset : (flag.Set (r.flagSet.vars flag.Value) e).2 = none) :
    setFromEnv h c name r =
      Run.mk (FlagSet.markActual { r.flagSet with
          vars := Function.update r.flagSet.vars flag.Value
            (flag.Set (r.flagSet.vars flag.Value) e).1 } name)
        (r.log ++ [Event.lookupEnv (c.mapper name), Event.set name e,
          Event.valueSet flag.Name e none]) r.halted := by
  unfold setFromEnv FlagSet.Set valueSet
  simp [henv, hlook, hset, Run.emit]

theorem setFromEnv_error (h : Host V) (c : config V) (name : String) (r : Run V) {e : String}
    {flag : Flag V} {msg : String} {u : UsageFunc}
    (henv : h.LookupEnv (c.mapper name) = some e)
    (hlook : r.flagSet.lookup name = some flag)
    (hset : (flag.Set (r.flagSet.vars flag.Value) e).2 = some msg)
    (hu : r.flagSet.Usage = some u) :
    setFromEnv h c name r =
      callExit c 2 (Run.mk { r.flagSet with
          vars := Function.update r.flagSet.vars flag.Value
            (flag.Set (r.flagSet.vars flag.Value) e).1 }
        (r.log ++ [Event.lookupEnv (c.mapper name), Event.set name e,
          Event.valueSet flag.Name e (some msg),
          Event.write (diagnostic name e msg), Event.usage]) r.halted) := by
  unfold setFromEnv FlagSet.Set valueSet diagnostic
  simp [henv, hlook, hset, hu, Run.emit]

theorem setFromEnv_error_nil (h : Host V) (c : config V) (name : String) (r : Run V)
    {e : String} {flag : Flag V} {msg : String}
    (henv : h.LookupEnv (c.mapper name) = some e)
    (hlook : r.flagSet.lookup name = some flag)
    (hset : (flag.Set (r.flagSet.vars flag.Value) e).2 = some msg)
    (hu : r.flagSet.Usage = none) :
    setFromEnv h c name r =
      Run.mk { r.flagSet with
          vars := Function.update r.flagSet.vars flag.Value
            (flag.Set (r.flagSet.vars flag.Value) e).1 }
        (r.log ++ [Event.lookupEnv (c.mapper name), Event.set name e,
          Event.valueSet flag.Name e (some msg),
          Event.write (diagnostic name e msg), Event.panic nilCallPanic]) true := by
  unfold setFromEnv FlagSet.Set valueSet diagnostic
  simp [henv, hlook, hset, hu, Run.emit]

theorem setFromEnv_undeclared (h : Host V) (c : config V) (name : String) (r : Run V)
    {e : String} {u : UsageFunc}
    (henv : h.LookupEnv (c.mapper name) = some e) (hlook : r.flagSet.lookup name = none)
    (hu : r.flagSet.Usage = some u) :
    setFromEnv h c name r =
      callExit c 2 { r with log := r.log ++ [Event.lookupEnv (c.mapper name), Event.set name e,
        Event.write (diagnostic name e ("no such flag -" ++ name)), Event.usage] } := by
  unfold setFromEnv FlagSet.Set diagnostic
  simp [henv, hlook, hu, Run.emit]

theorem setFromEnv_undeclared_nil (h : Host V) (c : config V) (name : String) (r : Run V)
    {e : String}
    (henv : h.LookupEnv (c.mapper name) = some e) (hlook : r.flagSet.lookup name = none)
    (hu : r.flagSet.Usage = none) :
    setFromEnv h c name r =
      Run.mk r.flagSet (r.log ++ [Event.lookupEnv (c.mapper name), Event.set name e,
          Event.write (diagnostic name e ("no such flag -" ++ name)),
          Event.panic nilCallPanic]) true := by
  unfold setFromEnv FlagSet.Set diagnostic
  simp [henv, hlook, hu, Run.emit]

/-- The ways in which the function literal of `setValuesFromEnv` ends on a flag: quietly
(the variable does not exist, or the flag is set from it), with the report of a failure
and the call of the exit callback with status 2, or, when the field `Usage` of the flag
set is nil, with the diagnostic and a panic. -/
theorem setFromEnv_cases (h : Host V) (c : config V) (name : String) (r : Run V) :
    ∃ evs, Tracks r (setFromEnv h c name r) evs ∧ (∀ e ∈ evs, EnvEvent h c [name] e) ∧
      Event.lookupEnv (c.mapper name) ∈ evs ∧
      (∀ e flag, h.LookupEnv (c.mapper name) = some e → r.flagSet.lookup name = some flag →
        (setFromEnv h c name r).flagSet.vars =
          Function.update r.flagSet.vars flag.Value (flag.Set (r.flagSet.vars flag.Value) e).1 ∧
        Event.set name e ∈ evs) ∧
      (((setFromEnv h c name r).halted = r.halted ∧ exitCodes evs = [] ∧
          (∀ m s msg, Event.valueSet m s (some msg) ∉ evs) ∧
          ((∃ e, h.LookupEnv (c.mapper name) = some e) → ∃ flag, r.flagSet.lookup name = some flag)) ∨
        (r.flagSet.Usage ≠ none ∧
          (setFromEnv h c name r).halted = decide (c.exit 2 = ExitResult.terminates) ∧
          ∃ mid, evs = mid ++ [Event.exit 2] ∧ exitCodes mid = []) ∨
        (r.flagSet.Usage = none ∧ (setFromEnv h c name r).halted = true ∧
          exitCodes evs = [])) := by
  cases henv : h.LookupEnv (c.mapper name) with
  | none =>
    rw [setFromEnv_none h c name r henv]
    refine ⟨[Event.lookupEnv (c.mapper name)], Tracks.of_same rfl rfl rfl rfl rfl, ?_, (by simp),
      fun e flag he => (by cases he), Or.inl ⟨rfl, rfl, (by simp), ?_⟩⟩
    · intro e he
      simp only [List.mem_singleton] at he
      subst he
      exact ⟨rfl, fun x hx => ⟨name, (by simp), (by cases hx; rfl)⟩, fun _ _ _ hx => (by cases hx),
        fun _ hx => (by cases hx)⟩
    · rintro ⟨e, he⟩
      cases he
  | some e =>
    cases hlook : r.flagSet.lookup name with
    | none =>
      cases hu : r.flagSet.Usage with
      | none =>
        rw [setFromEnv_undeclared_nil h c name r henv hlook hu]
        refine ⟨[Event.lookupEnv (c.mapper name), Event.set name e,
            Event.write (diagnostic name e ("no such flag -" ++ name)), Event.panic nilCallPanic],
          Tracks.of_same rfl rfl rfl rfl rfl, ?_, (by simp),
          fun e flag _ hf => (by cases hf), Or.inr (Or.inr ⟨rfl, rfl, rfl⟩)⟩
        intro x hx
        simp only [List.mem_cons, List.mem_singleton, List.not_mem_nil, or_false] at hx
        rcases hx with rfl | rfl | rfl | rfl
        · exact ⟨rfl, fun x hx => ⟨name, (by simp), (by cases hx; rfl)⟩, fun _ _ _ hx => (by cases hx),
            fun _ hx => (by cases hx)⟩
        all_goals exact ⟨rfl, fun _ hx => (by cases hx), fun _ _ _ hx => (by cases hx),
            fun _ hx => (by cases hx)⟩
      | some u =>
        rw [setFromEnv_undeclared h c name r henv hlook hu]
        refine ⟨[Event.lookupEnv (c.mapper name), Event.set name e,
            Event.write (diagnostic name e ("no such flag -" ++ name)), Event.usage, Event.exit 2],
          Tracks.of_same (by simp [callExit, Run.emit]) rfl rfl rfl rfl, ?_, (by simp),
          fun e flag _ hf => (by cases hf),
          Or.inr (Or.inl ⟨(by simp), rfl, [Event.lookupEnv (c.mapper name), Event.set name e,
            Event.write (diagnostic name e ("no such flag -" ++ name)), Event.usage], rfl, rfl⟩)⟩
        intro x hx
        simp only [List.mem_cons, List.mem_singleton, List.not_mem_nil, or_false] at hx
        rcases hx with rfl | rfl | rfl | rfl | rfl
        · exact ⟨rfl, fun x hx => ⟨name, (by simp), (by cases hx; rfl)⟩, fun _ _ _ hx => (by cases hx),
            fun _ hx => (by cases hx)⟩
        · exact ⟨rfl, fun _ hx => (by cases hx), fun _ _ _ hx => (by cases hx),
            fun _ hx => (by cases hx)⟩
        · exact ⟨rfl, fun _ hx => (by cases hx), fun _ _ _ hx => (by cases hx),
            fun _ hx => (by cases hx)⟩
        · exact ⟨rfl, fun _ hx => (by cases hx), fun _ _ _ hx => (by cases hx),
            fun _ hx => (by cases hx)⟩
        · exact ⟨rfl, fun _ hx => (by cases hx), fun _ _ _ hx => (by cases hx),
            fun _ hx => (by cases hx; rfl)⟩
    | some flag =>
      have hn := (lookup_name hlook).1
      subst hn
      have hclass : ∀ (err : Option String) (x : Event),
          x = Event.lookupEnv (c.mapper flag.Name) ∨ x = Event.set flag.Name e ∨
            x = Event.valueSet flag.Name e err ∨ (∃ t, x = Event.write t) ∨ x = Event.usage ∨
            x = Event.exit 2 ∨ (∃ t, x = Event.panic t) →
          EnvEvent h c [flag.Name] x := by
        intro err x hx
        rcases hx with rfl | rfl | rfl | ⟨t, rfl⟩ | rfl | rfl | ⟨t, rfl⟩
        · exact ⟨rfl, fun x hx => ⟨flag.Name, (by simp), (by cases hx; rfl)⟩,
            fun _ _ _ hx => (by cases hx), fun _ hx => (by cases hx)⟩
        · exact ⟨rfl, fun _ hx => (by cases hx), fun _ _ _ hx => (by cases hx),
            fun _ hx => (by cases hx)⟩
        · exact ⟨rfl, fun _ hx => (by cases hx),
            fun _ _ _ hx => (by cases hx; exact ⟨by simp, henv⟩), fun _ hx => (by cases hx)⟩
        · exact ⟨rfl, fun _ hx => (by cases hx), fun _ _ _ hx => (by cases hx),
            fun _ hx => (by cases hx)⟩
        · exact ⟨rfl, fun _ hx => (by cases hx), fun _ _ _ hx => (by cases hx),
            fun _ hx => (by cases hx)⟩
        · exact ⟨rfl, fun _ hx => (by cases hx), fun _ _ _ hx => (by cases hx),
            fun _ hx => (by cases hx; rfl)⟩
        · exact ⟨rfl, fun _ hx => (by cases hx), fun _ _ _ hx => (by cases hx),
            fun _ hx => (by cases hx)⟩
      cases hset : (flag.Set (r.flagSet.vars flag.Value) e).2 with
      | none =>
        rw [setFromEnv_ok h c flag.Name r henv hlook hset]
        refine ⟨[Event.lookupEnv (c.mapper flag.Name), Event.set flag.Name e,
            Event.valueSet flag.Name e none],
          @Tracks.of_update V _ _ flag _ _ e none hlook rfl rfl rfl rfl rfl (by simp), ?_,
          (by simp), ?_, Or.inl ⟨rfl, rfl, (by simp), fun _ => ⟨flag, rfl⟩⟩⟩
        · intro x hx
          simp only [List.mem_cons, List.mem_singleton, List.not_mem_nil, or_false] at hx
          rcases hx with hx | hx | hx
          · exact hclass none x (Or.inl hx)
          · exact hclass none x (Or.inr (Or.inl hx))
          · exact hclass none x (Or.inr (Or.inr (Or.inl hx)))
        · intro e' flag' he' hf'
          cases he'
          cases hf'
          exact ⟨rfl, (by simp)⟩
      | some msg =>
        cases hu : r.flagSet.Usage with
        | none =>
          rw [setFromEnv_error_nil h c flag.Name r henv hlook hset hu]
          refine ⟨[Event.lookupEnv (c.mapper flag.Name), Event.set flag.Name e,
              Event.valueSet flag.Name e (some msg), Event.write (diagnostic flag.Name e msg),
              Event.panic nilCallPanic],
            @Tracks.of_update V _ _ flag _ _ e (some msg) hlook rfl rfl rfl rfl rfl (by simp), ?_,
            (by simp), ?_, Or.inr (Or.inr ⟨rfl, rfl, rfl⟩)⟩
          · intro x hx
            simp only [List.mem_cons, List.mem_singleton, List.not_mem_nil, or_false] at hx
            rcases hx with hx | hx | hx | hx | hx
            · exact hclass (some msg) x (Or.inl hx)
            · exact hclass (some msg) x (Or.inr (Or.inl hx))
            · exact hclass (some msg) x (Or.inr (Or.inr (Or.inl hx)))
            · exact hclass (some msg) x (Or.inr (Or.inr (Or.inr (Or.inl ⟨_, hx⟩))))
            · exact hclass (some msg) x
                (Or.inr (Or.inr (Or.inr (Or.inr (Or.inr (Or.inr ⟨_, hx⟩))))))
          · intro e' flag' he' hf'
            cases he'
            cases hf'
            exact ⟨rfl, (by simp)⟩
        | some u =>
          rw [setFromEnv_error h c flag.Name r henv hlook hset hu]
          refine ⟨[Event.lookupEnv (c.mapper flag.Name), Event.set flag.Name e,
              Event.valueSet flag.Name e (some msg), Event.write (diagnostic flag.Name e msg),
              Event.usage, Event.exit 2],
            @Tracks.of_update V _ _ flag _ _ e (some msg) hlook
              (by simp [callExit, Run.emit]) rfl rfl rfl rfl (by simp), ?_,
            (by simp), ?_, Or.inr (Or.inl ⟨(by simp), rfl,
              [Event.lookupEnv (c.mapper flag.Name), Event.set flag.Name e,
                Event.valueSet flag.Name e (some msg), Event.write (diagnostic flag.Name e msg),
                Event.usage], rfl, rfl⟩)⟩
          · intro x hx
            simp only [List.mem_cons, List.mem_singleton, List.not_mem_nil, or_false] at hx
            rcases hx with hx | hx | hx | hx | hx | hx
            · exact hclass (some msg) x (Or.inl hx)
            · exact hclass (some msg) x (Or.inr (Or.inl hx))
            · exact hclass (some msg) x (Or.inr (Or.inr (Or.inl hx)))
            · exact hclass (some msg) x (Or.inr (Or.inr (Or.inr (Or.inl ⟨_, hx⟩))))
            · exact hclass (some msg) x (Or.inr (Or.inr (Or.inr (Or.inr (Or.inl hx)))))
            · exact hclass (some msg) x
                (Or.inr (Or.inr (Or.inr (Or.inr (Or.inr (Or.inl hx))))))
          · intro e' flag' he' hf'
            cases he'
            cases hf'
            exact ⟨rfl, (by simp)⟩

theorem EnvEvent.mono {h : Host V} {c : config V} {ns ms : List String} {e : Event}
    (hsub : ∀ n ∈ ns, n ∈ ms) (he : EnvEvent h c ns e) : EnvEvent h c ms e := by
  obtain ⟨h1, h2, h3, h4⟩ := he
  refine ⟨h1, fun x hx => ?_, fun m s err hx => ⟨hsub m (h3 m s err hx).1, (h3 m s err hx).2⟩, h4⟩
  obtain ⟨n, hn, hxn⟩ := h2 x hx
  exact ⟨n, hsub n hn, hxn⟩

theorem visit_cons (fn : String → Run V → Run V) (a : Flag V) (L : List (Flag V)) (r : Run V) :
    visit fn (a :: L) r = visit fn L (if r.halted then r else fn a.Name r) :=
  rfl

theorem visit_halted (fn : String → Run V → Run V) (L : List (Flag V)) (r : Run V)
    (hr : r.halted = true) : visit fn L r = r := by
  induction L with
  | nil => rfl
  | cons a L ih => rw [visit_cons, if_pos hr, ih]

theorem visit_running (fn : String → Run V → Run V) (a : Flag V) (L : List (Flag V)) (r : Run V)
    (hr : r.halted = false) : visit fn (a :: L) r = visit fn L (fn a.Name r) := by
  rw [visit_cons, hr]
  rfl

theorem env_visit_tracks (h : Host V) (c : config V) (L : List (Flag V)) (r : Run V) :
    ∃ evs, Tracks r (visit (setFromEnv h c) L r) evs ∧
      ∀ e ∈ evs, EnvEvent h c (L.map Flag.Name) e := by
  induction L generalizing r with
  | nil => exact ⟨[], Tracks.refl r, by simp⟩
  | cons a L ih =>
    by_cases hr : r.halted = true
    · rw [visit_halted _ _ r hr]
      exact ⟨[], Tracks.refl r, by simp⟩
    · rw [visit_running _ _ _ _ (by simpa using hr)]
      obtain ⟨e1, t1, q1, _⟩ := setFromEnv_cases h c a.Name r
      obtain ⟨e2, t2, q2⟩ := ih (setFromEnv h c a.Name r)
      refine ⟨e1 ++ e2, t1.trans t2, ?_⟩
      intro e he
      rcases List.mem_append.1 he with h1 | h1
      · exact (q1 e h1).mono (fun n hn => by
          simp only [List.mem_singleton] at hn
          subst hn
          exact List.mem_cons_self _ _)
      · exact (q2 e h1).mono (fun n hn => List.mem_cons_of_mem _ hn)

theorem env_visit_running (h : Host V) (c : config V) (L : List (Flag V)) (r : Run V)
    (hfin : (visit (setFromEnv h c) L r).halted = false) : r.halted = false := by
  by_cases hr : r.halted = true
  · rw [visit_halted _ L r hr] at hfin
    exact hfin
  · simpa using hr

/-- A flag that has its variable for itself and whose environment variable exists holds,
after an environment step that runs to its end, what its setter made of the content of the
variable, and `FlagSet.Set` was called on it with that content. -/
theorem env_visit_value (h : Host V) (c : config V) (L : List (Flag V)) (r : Run V)
    (hnd : (L.map Flag.Name).Nodup) {f0 g : Flag V} {e : String} (hmem : f0 ∈ L)
    (hlook : r.flagSet.lookup f0.Name = some g)
    (henv : h.LookupEnv (c.mapper f0.Name) = some e)
    (hfin : (visit (setFromEnv h c) L r).halted = false) :
    Event.set f0.Name e ∈ (visit (setFromEnv h c) L r).log ∧
      (g.Unshared r.flagSet.formal →
        (visit (setFromEnv h c) L r).flagSet.vars g.Value =
          (g.Set (r.flagSet.vars g.Value) e).1) := by
  induction L generalizing r with
  | nil => cases hmem
  | cons a L ih =>
    have hr := env_visit_running h c _ r hfin
    rw [visit_running _ _ _ _ hr] at hfin ⊢
    rw [List.map_cons, List.nodup_cons] at hnd
    obtain ⟨e1, t1, q1, _, hval, _⟩ := setFromEnv_cases h c a.Name r
    obtain ⟨e2, t2, q2⟩ := env_visit_tracks h c L (setFromEnv h c a.Name r)
    rcases List.mem_cons.1 hmem with rfl | hmem'
    · obtain ⟨hv, hs⟩ := hval e g henv hlook
      constructor
      · rw [t2.1, t1.1]
        exact List.mem_append_left _ (List.mem_append_right _ hs)
      · intro hun
        have hquiet : lastSet f0.Name e2 = none :=
          lastSet_none_of_names (fun x hx m s err hxe hm =>
            hnd.1 (hm ▸ ((q2 x hx).2.2.1 m s err hxe).1))
        rw [t2.vars_of_unshared (by rw [t1.lookup]; exact hlook) (by rw [t1.2.1]; exact hun)
          hquiet, hv, Function.update_same]
    · have hne : a.Name ≠ f0.Name := fun e =>
        hnd.1 (e ▸ List.mem_map_of_mem Flag.Name hmem')
      obtain ⟨hs, hv⟩ := ih _ hnd.2 hmem' (by rw [t1.lookup]; exact hlook) hfin
      refine ⟨hs, fun hun => ?_⟩
      have hquiet : lastSet f0.Name e1 = none :=
        lastSet_none_of_names (fun x hx m s err hxe hm => by
          have := ((q1 x hx).2.2.1 m s err hxe).1
          simp only [List.mem_singleton] at this
          exact hne (this ▸ hm))
      rw [hv (by rw [t1.2.1]; exact hun), t1.vars_of_unshared hlook hun hquiet]

/-- A rejected environment value in a flag set with a function in the field `Usage`: the
exit callback is called with status 2, and when the callback ends the process the run
ends with that call, the first call of the callback. -/
theorem env_visit_exit (h : Host V) (c : config V) (L : List (Flag V)) (r : Run V)
    (evs : List Event) (hr : r.halted = false) (hx : exitCodes r.log = [])
    (hu : r.flagSet.Usage ≠ none)
    (hlog : (visit (setFromEnv h c) L r).log = r.log ++ evs)
    (hrej : ∃ m s msg, Event.valueSet m s (some msg) ∈ evs) :
    2 ∈ exitCodes (visit (setFromEnv h c) L r).log ∧
      (c.exit 2 = ExitResult.terminates →
        (visit (setFromEnv h c) L r).halted = true ∧
        ∃ pre, (visit (setFromEnv h c) L r).log = pre ++ [Event.exit 2] ∧ exitCodes pre = []) := by
  induction L generalizing r evs with
  | nil =>
    have : evs = [] := by
      have h0 : r.log ++ evs = r.log ++ [] := by rw [← hlog]; simp [visit]
      exact List.append_cancel_left h0
    obtain ⟨m, s, msg, hm⟩ := hrej
    rw [this] at hm
    cases hm
  | cons a L ih =>
    rw [visit_running _ _ _ _ hr] at hlog ⊢
    obtain ⟨e1, t1, _, _, _, hout⟩ := setFromEnv_cases h c a.Name r
    obtain ⟨e2, t2, _⟩ := env_visit_tracks h c L (setFromEnv h c a.Name r)
    rcases hout with ⟨hh, hxs, hno, _⟩ | ⟨_, hhalt, mid, hmid, hxmid⟩ | ⟨hnil, _⟩
    · have hevs : evs = e1 ++ e2 := by
        have h0 : r.log ++ evs = r.log ++ (e1 ++ e2) := by
          rw [← hlog, t2.1, t1.1, List.append_assoc]
        exact List.append_cancel_left h0
      obtain ⟨m, s, msg, hm⟩ := hrej
      rw [hevs] at hm
      have hm2 : Event.valueSet m s (some msg) ∈ e2 :=
        (List.mem_append.1 hm).resolve_left (hno m s msg)
      exact ih _ e2 (hh.trans hr) (by rw [t1.1, exitCodes_append, hx, hxs]; rfl)
        (by rw [t1.2.2.2.1]; exact hu) t2.1 ⟨m, s, msg, hm2⟩
    · constructor
      · rw [t2.1, t1.1, hmid]
        simp [exitCodes_append, exitCodes]
      · intro hterm
        have hhalted : (setFromEnv h c a.Name r).halted = true := by
          rw [hhalt]
          simpa using hterm
        rw [visit_halted _ L _ hhalted]
        refine ⟨hhalted, r.log ++ mid, ?_, ?_⟩
        · rw [t1.1, hmid, List.append_assoc]
        · rw [exitCodes_append, hx, hxmid]
          rfl
    · exact absurd hnil hu

theorem env_visit_halted_terminates (h : Host V) (c : config V) (L : List (Flag V)) (r : Run V)
    (hr : r.halted = false) (hu : r.flagSet.Usage ≠ none)
    (hfin : (visit (setFromEnv h c) L r).halted = true) :
    c.exit 2 = ExitResult.terminates := by
  induction L generalizing r with
  | nil =>
    rw [show visit (setFromEnv h c) [] r = r from rfl, hr] at hfin
    cases hfin
  | cons a L ih =>
    rw [visit_running _ _ _ _ hr] at hfin
    obtain ⟨e1, t1, _, _, _, hout⟩ := setFromEnv_cases h c a.Name r
    have hu' : (setFromEnv h c a.Name r).flagSet.Usage ≠ none := by
      rw [t1.2.2.2.1]
      exact hu
    rcases hout with ⟨hh, _⟩ | ⟨_, hhalt, _⟩ | ⟨hnil, _⟩
    · exact ih _ (hh.trans hr) hu' hfin
    · by_cases hs : (setFromEnv h c a.Name r).halted = true
      · rw [hhalt] at hs
        simpa using hs
      · exact ih _ (by simpa using hs) hu' hfin
    · exact absurd hnil hu

theorem env_visit_all_lookups (h : Host V) (c : config V) (L : List (Flag V)) (r : Run V)
    (hfin : (visit (setFromEnv h c) L r).halted = false) :
    ∀ a ∈ L, Event.lookupEnv (c.mapper a.Name) ∈ (visit (setFromEnv h c) L r).log := by
  induction L generalizing r with
  | nil => intro a ha; cases ha
  | cons b L ih =>
    have hr := env_visit_running h c _ r hfin
    rw [visit_running _ _ _ _ hr] at hfin ⊢
    intro a ha
    rcases List.mem_cons.1 ha with rfl | ha'
    · obtain ⟨e1, t1, _, hl, _⟩ := setFromEnv_cases h c a.Name r
      obtain ⟨evs, ht, _⟩ := env_visit_tracks h c L (setFromEnv h c a.Name r)
      rw [ht.1, t1.1]
      exact List.mem_append_left _ (List.mem_append_right _ hl)
    · exact ih _ hfin a ha'

/-! ## The pipeline of `Parse` -/

theorem Parse_ok {h : Host V} {opts : List (OptionFn V)} {c : config V}
    (hc : configFor h opts = Except.ok c) : Parse h opts = parseWith h c := by
  unfold Parse
  rw [hc]

theorem prepare_eq (c : config V) (f : Flag V) :
    (prepare c f).Name = f.Name ∧ (prepare c f).Value = f.Value ∧ (prepare c f).Set = f.Set := by
  unfold prepare
  cases c.showInUsage
  · exact ⟨rfl, rfl, rfl⟩
  · rw [if_pos rfl, annotate_eq]
    exact ⟨rfl, rfl, rfl⟩

theorem preparedRun_eq (c : config V) :
    (if c.showInUsage then updateUsage c (startRun c) else startRun c) = preparedRun c := by
  unfold preparedRun
  cases hs : c.showInUsage
  · have : (prepare c : Flag V → Flag V) = id := by
      funext f
      simp [prepare, hs]
    rw [this, List.map_id]
    rfl
  · have : (prepare c : Flag V → Flag V) = annotate c := by
      funext f
      simp [prepare, hs]
    rw [this, if_pos rfl, updateUsage_eq c _ rfl]
    rfl

theorem afterEnv_eq (h : Host V) (c : config V) :
    afterEnv h c = visit (setFromEnv h c) (sortFlags (preparedRun c).flagSet.formal)
      (preparedRun c) := by
  unfold afterEnv setValuesFromEnv VisitAll
  rw [preparedRun_eq]

theorem preparedRun_lookup (c : config V) (n : String) :
    (preparedRun c).flagSet.lookup n = (c.flagSet.lookup n).map (prepare c) :=
  find_map_name c.flagSet.formal (prepare c) (fun f => (prepare_eq c f).1) n

theorem preparedRun_names (c : config V) :
    (preparedRun c).flagSet.formal.map Flag.Name = c.flagSet.formal.map Flag.Name := by
  show (c.flagSet.formal.map (prepare c)).map Flag.Name = _
  rw [List.map_map]
  apply List.map_congr_left
  intro f _
  exact (prepare_eq c f).1

theorem preparedRun_valueOf (c : config V) (n : String) :
    (preparedRun c).flagSet.valueOf n = c.flagSet.valueOf n := by
  unfold FlagSet.valueOf
  rw [preparedRun_lookup]
  cases c.flagSet.lookup n with
  | none => rfl
  | some f =>
    show some ((preparedRun c).flagSet.vars (prepare c f).Value) = some (c.flagSet.vars f.Value)
    rw [(prepare_eq c f).2.1]
    rfl

theorem prepare_unshared (c : config V) {f : Flag V} (hu : f.Unshared c.flagSet.formal) :
    (prepare c f).Unshared (preparedRun c).flagSet.formal := by
  intro g hg hv
  have hg' : g ∈ c.flagSet.formal.map (prepare c) := hg
  obtain ⟨g0, hg0, rfl⟩ := List.mem_map.1 hg'
  rw [(prepare_eq c g0).2.1, (prepare_eq c f).2.1] at hv
  rw [(prepare_eq c g0).1, (prepare_eq c f).1]
  exact hu g0 hg0 hv

theorem afterEnv_tracks (h : Host V) (c : config V) :
    Tracks (preparedRun c) (afterEnv h c) (afterEnv h c).log ∧
      ∀ e ∈ (afterEnv h c).log, EnvEvent h c (c.flagSet.formal.map Flag.Name) e := by
  rw [afterEnv_eq]
  obtain ⟨evs, ht, hq⟩ := env_visit_tracks h c (sortFlags (preparedRun c).flagSet.formal)
    (preparedRun c)
  have hlog : (visit (setFromEnv h c) (sortFlags (preparedRun c).flagSet.formal)
      (preparedRun c)).log = evs := by
    rw [ht.1]
    rfl
  rw [hlog]
  refine ⟨ht, fun e he => (hq e he).mono ?_⟩
  intro n hn
  obtain ⟨a, ha, rfl⟩ := List.mem_map.1 hn
  rw [← preparedRun_names]
  exact List.mem_map_of_mem Flag.Name (mem_sortFlags.1 ha)

theorem callExit_tracks (c : config V) (code : Int) (r : Run V) :
    Tracks r (callExit c code r) [Event.exit code] :=
  Tracks.of_same rfl rfl rfl rfl rfl

theorem parseWith_eq (h : Host V) (c : config V) :
    parseWith h c =
      if (afterEnv h c).halted then afterEnv h c
      else
        match FlagSet.Parse (elems c.arguments) (afterEnv h c) with
        | (none, r) => r
        | (some err, r) =>
          if (if err = FlagError.ErrHelp then callExit c 0 r else r).halted then
            (if err = FlagError.ErrHelp then callExit c 0 r else r)
          else callExit c 2 (if err = FlagError.ErrHelp then callExit c 0 r else r) :=
  rfl

theorem parseWith_of_halted (h : Host V) (c : config V)
    (hh : (afterEnv h c).halted = true) : parseWith h c = afterEnv h c := by
  rw [parseWith_eq, if_pos hh]

theorem argEvents_append (A B : List Event) (a : List String)
    (hA : ∀ e ∈ A, e.isParse = false) : argEvents (A ++ Event.parse a :: B) = Event.parse a :: B := by
  induction A with
  | nil => rfl
  | cons x A ih =>
    have hx := hA x (List.mem_cons_self _ _)
    unfold argEvents
    rw [List.cons_append, List.dropWhile_cons, hx]
    exact ih (fun e he => hA e (List.mem_cons_of_mem _ he))

theorem argEvents_of_env (A : List Event) (hA : ∀ e ∈ A, e.isParse = false) :
    argEvents A = [] := by
  unfold argEvents
  rw [List.dropWhile_eq_nil_iff]
  intro e he
  simp [hA e he]

theorem parseWith_tracks (h : Host V) (c : config V)
    (hrun : (afterEnv h c).halted = false) :
    ∃ evs xs, Tracks (afterEnv h c) (parseWith h c)
        (Event.parse (elems c.arguments) :: (evs ++ xs)) ∧
      (FlagSet.Parse (elems c.arguments) (afterEnv h c)).2.log =
        (afterEnv h c).log ++ Event.parse (elems c.arguments) :: evs ∧
      (∀ e ∈ evs, e = Event.usage ∨ (∃ t, e = Event.write t) ∨
        (∃ m s err, e = Event.valueSet m s err) ∨ (∃ c, e = Event.osExit c) ∨
        ∃ m, e = Event.panic m) ∧
      (∀ e ∈ xs, ∃ code, e = Event.exit code) := by
  obtain ⟨evs, ht, hq, _, _⟩ := FlagSet.Parse_spec (elems c.arguments) (afterEnv h c)
  rw [parseWith_eq, hrun]
  simp only [Bool.false_eq_true, if_false]
  rcases hres : FlagSet.Parse (elems c.arguments) (afterEnv h c) with ⟨res, r3⟩
  rw [hres] at ht
  dsimp only at ht ⊢
  cases res with
  | none =>
    exact ⟨evs, [], by simpa using ht, ht.1, hq, by simp⟩
  | some err =>
    dsimp only
    by_cases he : err = FlagError.ErrHelp
    · rw [if_pos he]
      have t0 := ht.trans (callExit_tracks c 0 r3)
      by_cases hh : (callExit c 0 r3).halted = true
      · rw [if_pos hh]
        exact ⟨evs, [Event.exit 0], t0, ht.1, hq, by simp⟩
      · rw [if_neg hh]
        have t1 := t0.trans (callExit_tracks c 2 _)
        refine ⟨evs, [Event.exit 0, Event.exit 2], ?_, ht.1, hq, by simp⟩
        simpa using t1
    · rw [if_neg he]
      have t0 := ht.trans (callExit_tracks c 2 r3)
      by_cases hh : r3.halted = true
      · rw [if_pos hh]
        exact ⟨evs, [], by simpa using ht, ht.1, hq, by simp⟩
      · rw [if_neg hh]
        exact ⟨evs, [Event.exit 2], t0, ht.1, hq, by simp⟩

theorem parseWith_argEvents (h : Host V) (c : config V) :
    Tracks (afterEnv h c) (parseWith h c) (argEvents (parseWith h c).log) := by
  by_cases hh : (afterEnv h c).halted = true
  · rw [parseWith_of_halted h c hh,
      argEvents_of_env _ (fun e he => ((afterEnv_tracks h c).2 e he).1)]
    exact Tracks.refl _
  · obtain ⟨evs, xs, ht, _, _, _⟩ := parseWith_tracks h c (by simpa using hh)
    rw [ht.1, argEvents_append _ _ _ (fun e he => ((afterEnv_tracks h c).2 e he).1)]
    exact ht

theorem parseWith_formal (h : Host V) (c : config V) :
    (parseWith h c).flagSet.formal = (preparedRun c).flagSet.formal :=
  (parseWith_argEvents h c).2.1.trans (afterEnv_tracks h c).1.2.1

/-! ## Precedence of the three sources of a value -/

/-- Two flags on one variable, `name` and `n`, with `N=fromenv` in the environment and no
arguments: the flag `name` has no environment variable `NAME` and no argument sets it,
yet its value changes from `def` to `fromenv`, because the environment step sets the
variable through `n`. -/
theorem Parse_keeps_default_counterexample :
    (hostOf [("N", "fromenv")]).LookupEnv (defaultMapper id "name") = none ∧
      lastSet "name" (argEvents (Parse (hostOf [("N", "fromenv")])
        [WithFlagSet aliasSet, WithArguments (some [])]).log) = none ∧
      aliasSet.valueOf "name" = some (Val.str "def") ∧
      (Parse (hostOf [("N", "fromenv")])
        [WithFlagSet aliasSet, WithArguments (some [])]).flagSet.valueOf "name" =
        some (Val.str "fromenv") := by
  decide

/-- C3, amended: a flag that has its variable for itself (no other declared flag points to
the same variable), for which no environment variable named `mapper(flagName)` exists
and which no argument sets, has after `Parse` the value it had before `Parse` (its
declared default), whatever happens to the other flags and however the run ends. -/
theorem Parse_keeps_default (h : Host V) (opts : List (OptionFn V)) (c : config V) (n : String)
    (hc : configFor h opts = Except.ok c)
    (hun : ∀ f, c.flagSet.lookup n = some f → f.Unshared c.flagSet.formal)
    (henv : h.LookupEnv (c.mapper n) = none)
    (hargs : lastSet n (argEvents (Parse h opts).log) = none) :
    (Parse h opts).flagSet.valueOf n = c.flagSet.valueOf n := by
  rw [Parse_ok hc] at hargs ⊢
  rw [← preparedRun_valueOf]
  have t1 := (afterEnv_tracks h c).1
  have t2 := parseWith_argEvents h c
  cases hl : c.flagSet.lookup n with
  | none =>
    unfold FlagSet.valueOf
    rw [t2.lookup, t1.lookup, preparedRun_lookup, hl]
    rfl
  | some f =>
    have hp : (preparedRun c).flagSet.lookup n = some (prepare c f) := by
      rw [preparedRun_lookup, hl]
      rfl
    have hpu := prepare_unshared c (hun f hl)
    have hquiet : lastSet n (afterEnv h c).log = none :=
      lastSet_none_of_names (fun x hx m s err hxe hm => by
        have := ((afterEnv_tracks h c).2 x hx).2.2.1 m s err hxe
        rw [hm, henv] at this
        cases this.2)
    rw [t2.valueOf_of_unshared (by rw [t1.lookup]; exact hp) (by rw [t1.2.1]; exact hpu) hargs,
      t1.valueOf_of_unshared hp hpu hquiet]

/-- The example of C3: in `TestMapsEnvironmentVariables` the flag `other-string`, without
an environment variable and without an argument, stays `baz`. -/
theorem Parse_keeps_default_witness :
    (Parse (hostOf [("MY_STRING", "bar"), ("MY_BOOL", "false")])
        [WithFlagSet testSet, WithArguments (some [])]).flagSet.valueOf "other-string" =
      some (Val.str "baz") :=
  Parse_keeps_default (hostOf [("MY_STRING", "bar"), ("MY_BOOL", "false")])
    [WithFlagSet testSet, WithArguments (some [])] _ "other-string" rfl
    (fun f hf => by
      have : f = (stringFlag 2 "other-string" "baz" "A third flag").flag :=
        (Option.some.inj hf).symm
      subst this
      unfold Flag.Unshared
      decide)
    (by decide) (by decide)

/-- Two inputs on which a flag with an environment variable that converts, and with no
argument setting it, does not end with the content of that variable.  The flags `name` and
`n` on one variable, with `N=b` and the argument `-name=x`: the run succeeds and `n` ends
with `x`.  The flags `a-int` and `b-str` with `A_INT=seven` and `B_STR=y` and the default
exit routine: the run ends at the failure of `a-int`, before `b-str` is looked up, and
`b-str` is left with its default `x`. -/
theorem Parse_env_value_counterexample :
    ((hostOf [("N", "b")]).LookupEnv (defaultMapper id "n") = some "b" ∧
      (stringSet (Val.str "def") "b").2 = none ∧
      lastSet "n" (argEvents (Parse (hostOf [("N", "b")])
        [WithFlagSet aliasSet, WithArguments (some ["-name=x"])]).log) = none ∧
      (Parse (hostOf [("N", "b")])
        [WithFlagSet aliasSet, WithArguments (some ["-name=x"])]).halted = false ∧
      exitCodes (Parse (hostOf [("N", "b")])
        [WithFlagSet aliasSet, WithArguments (some ["-name=x"])]).log = [] ∧
      (Parse (hostOf [("N", "b")])
        [WithFlagSet aliasSet, WithArguments (some ["-name=x"])]).flagSet.valueOf "n" =
        some (Val.str "x")) ∧
      ((hostOf [("A_INT", "seven"), ("B_STR", "y")]).LookupEnv (defaultMapper id "b-str") =
          some "y" ∧
        (stringSet (Val.str "x") "y").2 = none ∧
        lastSet "b-str" (argEvents (Parse (hostOf [("A_INT", "seven"), ("B_STR", "y")])
          [WithFlagSet pairSet, WithArguments (some [])]).log) = none ∧
        (Parse (hostOf [("A_INT", "seven"), ("B_STR", "y")])
          [WithFlagSet pairSet, WithArguments (some [])]).log =
          [Event.lookupEnv "A_INT", Event.set "a-int" "seven",
           Event.valueSet "a-int" "seven" (some "parse error"),
           Event.write "Unable to set flag a-int value to seven from environment: parse error\n",
           Event.usage, Event.exit 2] ∧
        (Parse (hostOf [("A_INT", "seven"), ("B_STR", "y")])
          [WithFlagSet pairSet, WithArguments (some [])]).flagSet.valueOf "b-str" =
          some (Val.str "x")) := by
  decide

/-- C2, amended: a declared flag that has its variable for itself, whose environment
variable, named exactly `mapper(flagName)`, exists, and which no argument sets, holds
after `Parse`, when the environment step was not cut short by the failure of another
flag, the value that its setter makes of the content of that variable; the environment is
looked up under the names `mapper(flagName)` of the declared flags only. -/
theorem Parse_env_value (h : Host V) (opts : List (OptionFn V)) (c : config V) (f : Flag V)
    (e : String) (hc : configFor h opts = Except.ok c)
    (hnd : (c.flagSet.formal.map Flag.Name).Nodup)
    (hf : f ∈ c.flagSet.formal)
    (hun : f.Unshared c.flagSet.formal)
    (henv : h.LookupEnv (c.mapper f.Name) = some e)
    (hargs : lastSet f.Name (argEvents (Parse h opts).log) = none)
    (hrun : (afterEnv h c).halted = false) :
    (Parse h opts).flagSet.valueOf f.Name = some (f.Set (c.flagSet.vars f.Value) e).1 ∧
      ∀ x, Event.lookupEnv x ∈ (Parse h opts).log →
        ∃ g ∈ c.flagSet.formal, x = c.mapper g.Name := by
  rw [Parse_ok hc] at hargs ⊢
  have hp := prepare_eq c f
  have hnd' : ((preparedRun c).flagSet.formal.map Flag.Name).Nodup := by
    rw [preparedRun_names]
    exact hnd
  have hmem : prepare c f ∈ (preparedRun c).flagSet.formal := List.mem_map_of_mem _ hf
  have hlook := lookup_of_mem_nodup hnd' hmem
  have hpu := prepare_unshared c hun
  have hstep := (env_visit_value h c (sortFlags (preparedRun c).flagSet.formal) (preparedRun c)
    (sortFlags_nodup hnd') (mem_sortFlags.2 hmem) hlook
    (by rw [hp.1]; exact henv) (by rw [← afterEnv_eq]; exact hrun)).2 hpu
  rw [← afterEnv_eq, hp.2.1, hp.2.2] at hstep
  have t1 := (afterEnv_tracks h c).1
  have t2 := parseWith_argEvents h c
  rw [hp.1] at hlook
  obtain ⟨evs, xs, ht, _, hq, hx⟩ := parseWith_tracks h c hrun
  constructor
  · rw [t2.valueOf_of_unshared (by rw [t1.lookup]; exact hlook) (by rw [t1.2.1]; exact hpu) hargs]
    unfold FlagSet.valueOf
    rw [t1.lookup, hlook]
    show some ((afterEnv h c).flagSet.vars (prepare c f).Value) = _
    rw [hp.2.1, hstep]
    rfl
  · intro x hxmem
    rw [ht.1] at hxmem
    rcases List.mem_append.1 hxmem with h1 | h1
    · obtain ⟨n, hn, hxn⟩ := ((afterEnv_tracks h c).2 _ h1).2.1 x rfl
      obtain ⟨g, hg, rfl⟩ := List.mem_map.1 hn
      exact ⟨g, hg, hxn⟩
    · rcases List.mem_cons.1 h1 with h2 | h2
      · cases h2
      · rcases List.mem_append.1 h2 with h3 | h3
        · rcases hq _ h3 with h4 | ⟨_, h4⟩ | ⟨_, _, _, h4⟩ | ⟨_, h4⟩ | ⟨_, h4⟩ <;> cases h4
        · obtain ⟨_, h4⟩ := hx _ h3
          cases h4

/-- The example of C2 with a prefix (`TestWithPrefix`): under `WithPrefix("PREFIX_")` the
flag `my-string` is set from `PREFIX_MY_STRING` (`bar`), not from `MY_STRING` (`bar2`). -/
theorem Parse_env_value_witness :
    (Parse (hostOf [("MY_STRING", "bar2"), ("MY_BOOL", "true"), ("PREFIX_MY_STRING", "bar"),
          ("PREFIX_MY_BOOL", "false")])
        [WithFlagSet testSet, WithArguments (some []), WithPrefix "PREFIX_"]).flagSet.valueOf "my-string" =
      some (Val.str "bar") :=
  (Parse_env_value (hostOf [("MY_STRING", "bar2"), ("MY_BOOL", "true"),
      ("PREFIX_MY_STRING", "bar"), ("PREFIX_MY_BOOL", "false")])
    [WithFlagSet testSet, WithArguments (some []), WithPrefix "PREFIX_"] _
    (stringFlag 0 "my-string" "foo" "Some string flag").flag "bar" rfl
    (by decide) (List.Mem.head _) (by unfold Flag.Unshared; decide) (by decide) (by decide)
    (by decide)).1

/-- The examples of C2 without a prefix (`TestMapsEnvironmentVariables`): `MY_STRING=bar`
and `MY_BOOL=false` with no arguments give `my-string = "bar"` and `my-bool = false`. -/
theorem tests_env_values :
    (Parse (hostOf [("MY_STRING", "bar"), ("MY_BOOL", "false")])
        [WithFlagSet testSet, WithArguments (some [])]).flagSet.valueOf "my-string" = some (Val.str "bar") ∧
      (Parse (hostOf [("MY_STRING", "bar"), ("MY_BOOL", "false")])
        [WithFlagSet testSet, WithArguments (some [])]).flagSet.valueOf "my-bool" = some (Val.bool false) := by
  decide

/-- C1: the test input (`MY_STRING=bar`, arguments `-my-string qux`) leaves `my-string =
"qux"`, the value given by the argument.  The list flag `tag` with `TAG=a` in the
environment and the arguments `-tag b`: no environment conversion fails, the argument
parse succeeds and sets the flag, and the flag ends with the list `[a, b]`, not with the
value given by the argument, `[b]`, which the same arguments give in an empty
environment. -/
theorem Parse_argument_after_env :
    (Parse (hostOf [("MY_STRING", "bar"), ("MY_BOOL", "false")])
        [WithFlagSet testSet, WithArguments (some ["-my-string", "qux", "-other-string=foo"])]
        ).flagSet.valueOf "my-string" = some (Val.str "qux") ∧
      (Parse (hostOf [("TAG", "a")])
        [WithFlagSet tagSet, WithArguments (some ["-tag", "b"])]).halted = false ∧
      exitCodes (Parse (hostOf [("TAG", "a")])
        [WithFlagSet tagSet, WithArguments (some ["-tag", "b"])]).log = [] ∧
      (hostOf [("TAG", "a")]).LookupEnv (defaultMapper id "tag") = some "a" ∧
      lastSet "tag" (argEvents (Parse (hostOf [("TAG", "a")])
        [WithFlagSet tagSet, WithArguments (some ["-tag", "b"])]).log) = some "b" ∧
      (Parse (hostOf [("TAG", "a")])
        [WithFlagSet tagSet, WithArguments (some ["-tag", "b"])]).flagSet.valueOf "tag" =
        some (Val.list ["a", "b"]) ∧
      (Parse (hostOf [])
        [WithFlagSet tagSet, WithArguments (some ["-tag", "b"])]).flagSet.valueOf "tag" =
        some (Val.list ["b"]) := by
  decide

/-! ## Failures and the exit callback -/

theorem exitCodes_callExit (c : config V) (code : Int) (r : Run V) :
    exitCodes (callExit c code r).log = exitCodes r.log ++ [code] := by
  show exitCodes (r.log ++ [Event.exit code]) = _
  rw [exitCodes_append]
  rfl

/-- Two flags with rejected and accepted environment values and an exit callback that
returns, as the one of the test suite: after the call of the exit callback with status 2
for `a-int`, the later flag `b-str` is looked up and set from the environment, and the
arguments are parsed. -/
theorem env_failure_counterexample :
    (Parse (hostOf [("A_INT", "seven"), ("B_STR", "y")])
        [WithFlagSet pairSet, WithArguments (some []), withExit recordingExit,
         WithShowInUsage false]).log =
      [Event.lookupEnv "A_INT", Event.set "a-int" "seven",
       Event.valueSet "a-int" "seven" (some "parse error"),
       Event.write "Unable to set flag a-int value to seven from environment: parse error\n",
       Event.usage, Event.exit 2,
       Event.lookupEnv "B_STR", Event.set "b-str" "y", Event.valueSet "b-str" "y" none,
       Event.parse []] ∧
      (Parse (hostOf [("A_INT", "seven"), ("B_STR", "y")])
        [WithFlagSet pairSet, WithArguments (some []), withExit recordingExit,
         WithShowInUsage false]).flagSet.valueOf "b-str" =
        some (Val.str "y") := by
  decide

/-- C6, amended: in a flag set with a function in the field `Usage`, when the setter
rejects the environment value of some flag, the exit callback is called with status 2.
If the callback does not return control for that status (as `os.Exit`, the default), the
run ends with that call, which is the first call of the callback: nothing is looked up,
set or written after it and the arguments are not parsed.  If the callback returns
control, the environment step goes on: every declared flag is looked up in the
environment and the arguments are parsed. -/
theorem env_failure_exits (h : Host V) (opts : List (OptionFn V)) (c : config V)
    (n e msg : String) (hc : configFor h opts = Except.ok c)
    (hu : c.flagSet.Usage ≠ none)
    (hrej : Event.valueSet n e (some msg) ∈ (afterEnv h c).log) :
    2 ∈ exitCodes (Parse h opts).log ∧
      (c.exit 2 = ExitResult.terminates →
        (Parse h opts).halted = true ∧
        (∃ pre, (Parse h opts).log = pre ++ [Event.exit 2] ∧ exitCodes pre = []) ∧
        ∀ a, Event.parse a ∉ (Parse h opts).log) ∧
      (c.exit 2 = ExitResult.returns →
        (∀ g ∈ c.flagSet.formal, Event.lookupEnv (c.mapper g.Name) ∈ (Parse h opts).log) ∧
        Event.parse (elems c.arguments) ∈ (Parse h opts).log) := by
  rw [Parse_ok hc]
  have hstep := env_visit_exit h c (sortFlags (preparedRun c).flagSet.formal) (preparedRun c)
    (afterEnv h c).log rfl rfl hu (by rw [← afterEnv_eq]; rfl)
    ⟨n, e, msg, hrej⟩
  rw [← afterEnv_eq] at hstep
  have t2 := parseWith_argEvents h c
  refine ⟨?_, ?_, ?_⟩
  · rw [t2.1, exitCodes_append]
    exact List.mem_append_left _ hstep.1
  · intro hterm
    obtain ⟨hh, hpre⟩ := hstep.2 hterm
    rw [parseWith_of_halted h c hh]
    refine ⟨hh, hpre, ?_⟩
    intro a ha
    have := ((afterEnv_tracks h c).2 _ ha).1
    simp [Event.isParse] at this
  · intro hret
    have hrun : (afterEnv h c).halted = false := by
      by_contra hcon
      have hterm := env_visit_halted_terminates h c
        (sortFlags (preparedRun c).flagSet.formal) (preparedRun c) rfl hu
        (by rw [← afterEnv_eq]; simpa using hcon)
      rw [hret] at hterm
      cases hterm
    obtain ⟨evs, xs, ht, _, _, _⟩ := parseWith_tracks h c hrun
    constructor
    · intro g hg
      have hall := env_visit_all_lookups h c (sortFlags (preparedRun c).flagSet.formal)
        (preparedRun c) (by rw [← afterEnv_eq]; exact hrun) (prepare c g)
        (mem_sortFlags.2 (List.mem_map_of_mem _ hg))
      rw [← afterEnv_eq, (prepare_eq _ g).1] at hall
      rw [ht.1]
      exact List.mem_append_left _ hall
    · rw [ht.1]
      exact List.mem_append_right _ (List.mem_cons_self _ _)

/-- The example of C6 with the default exit routine (`TestExitsStatusTwoForBadEnvVars`
without `withExit`): the integer flag `my-int` with `MY_INT=seven` ends the run with the
call of exit status 2, before any parsing. -/
theorem env_failure_exits_witness :
    2 ∈ exitCodes (Parse (hostOf [("MY_INT", "seven")])
        [WithFlagSet intSetOf, WithArguments (some [])]).log ∧
      (Parse (hostOf [("MY_INT", "seven")])
        [WithFlagSet intSetOf, WithArguments (some [])]).halted = true ∧
      ∀ a, Event.parse a ∉ (Parse (hostOf [("MY_INT", "seven")])
        [WithFlagSet intSetOf, WithArguments (some [])]).log :=
  ⟨(env_failure_exits (hostOf [("MY_INT", "seven")])
      [WithFlagSet intSetOf, WithArguments (some [])] _ "my-int" "seven" "parse error" rfl
      (by decide) (by decide)).1,
    ((env_failure_exits (hostOf [("MY_INT", "seven")])
      [WithFlagSet intSetOf, WithArguments (some [])] _ "my-int" "seven" "parse error" rfl
      (by decide) (by decide)).2.1 rfl).1,
    ((env_failure_exits (hostOf [("MY_INT", "seven")])
      [WithFlagSet intSetOf, WithArguments (some [])] _ "my-int" "seven" "parse error" rfl
      (by decide) (by decide)).2.1 rfl).2.2⟩

/-- The help request of `TestExitsStatusZeroForHelp`, with the returning exit callback of
the test suite: the environment step does not fail, the parse routine signals
`flag.ErrHelp`, and the exit callback is called with status 0 and then with status 2. -/
theorem parse_failure_counterexample :
    configFor (hostOf [])
        [WithFlagSet (NewFlagSet "test" ErrorHandling.ContinueOnError []),
         WithArguments (some ["-help"]), withExit recordingExit] = Except.ok helpConfig ∧
      (afterEnv (hostOf []) helpConfig).halted = false ∧
      exitCodes (afterEnv (hostOf []) helpConfig).log = [] ∧
      (FlagSet.Parse ["-help"] (afterEnv (hostOf []) helpConfig)).1 = some FlagError.ErrHelp ∧
      exitCodes (Parse (hostOf [])
        [WithFlagSet (NewFlagSet "test" ErrorHandling.ContinueOnError []),
         WithArguments (some ["-help"]), withExit recordingExit]).log = [0, 2] :=
  ⟨rfl, by decide, by decide, by decide, by decide⟩

/-- C7, amended: when the environment step does not fail (it runs to its end without a
call of the exit callback) and the parse routine returns an error, the statuses the exit
callback is called with are fixed by the kind of the error: for help requested, status
0, followed by status 2 exactly when the call with status 0 returns control; for any
other failure, status 2 alone. -/
theorem parse_failure_exits (h : Host V) (opts : List (OptionFn V)) (c : config V)
    (err : FlagError) (hc : configFor h opts = Except.ok c)
    (hrun : (afterEnv h c).halted = false)
    (henv : exitCodes (afterEnv h c).log = [])
    (herr : (FlagSet.Parse (elems c.arguments) (afterEnv h c)).1 = some err) :
    exitCodes (Parse h opts).log =
      if err = FlagError.ErrHelp then
        (if c.exit 0 = ExitResult.returns then [0, 2] else [0])
      else [2] := by
  rw [Parse_ok hc]
  obtain ⟨evs, ht, hq, _, hkeep⟩ := FlagSet.Parse_spec (elems c.arguments) (afterEnv h c)
  have hhalt := hkeep err herr
  have hx3 : exitCodes (FlagSet.Parse (elems c.arguments) (afterEnv h c)).2.log = [] := by
    rw [ht.1, exitCodes_append, henv]
    simp only [List.nil_append]
    unfold exitCodes
    rw [List.filterMap_eq_nil_iff]
    intro e he
    rcases List.mem_cons.1 he with h1 | h1
    · rw [h1]
    · rcases hq e h1 with h2 | ⟨_, h2⟩ | ⟨_, _, _, h2⟩ | ⟨_, h2⟩ | ⟨_, h2⟩ <;> rw [h2]
  rw [parseWith_eq, hrun]
  simp only [Bool.false_eq_true, if_false]
  rcases hres : FlagSet.Parse (elems c.arguments) (afterEnv h c) with ⟨res, r3⟩
  rw [hres] at herr hhalt hx3
  dsimp only at herr hhalt hx3
  subst herr
  dsimp only
  have hr3 : r3.halted = false := hhalt.trans hrun
  by_cases he : err = FlagError.ErrHelp
  · rw [if_pos he, if_pos he]
    cases hex : c.exit 0 with
    | returns =>
      have : (callExit c 0 r3).halted = false := by simp [callExit, hex]
      rw [this]
      simp [exitCodes_callExit, hx3]
    | terminates =>
      have : (callExit c 0 r3).halted = true := by simp [callExit, hex]
      rw [this]
      simp [exitCodes_callExit, hx3]
  · rw [if_neg he, if_neg he, hr3]
    simp [exitCodes_callExit, hx3]

/-- The example of C7 for another failure (`TestExitsStatusTwoForBadFlags`): the undeclared
flag `-bazinga` leads to the single exit status 2. -/
theorem parse_failure_exits_witness :
    exitCodes (Parse (hostOf [])
        [WithFlagSet (NewFlagSet "test" ErrorHandling.ContinueOnError []),
         WithArguments (some ["-bazinga"]), withExit recordingExit]).log = [2] :=
  parse_failure_exits (hostOf [])
    [WithFlagSet (NewFlagSet "test" ErrorHandling.ContinueOnError []),
     WithArguments (some ["-bazinga"]), withExit recordingExit] _
    (FlagError.failure "flag provided but not defined: -bazinga") rfl (by decide) (by decide)
    (by decide)

/-- C8: when every environment value converts and the argument parse succeeds
(`TestMapsEnvironmentVariables`), `Parse` returns without a call of the exit callback, and
a rejected environment value in a flag set made by `flag.NewFlagSet` leads to the call
with status 2.  On the zero value of `flag.FlagSet`, whose field `Usage` is nil, the
setter rejects `MY_INT=seven` and the exit callback is not called: the run ends in the
panic of the call `c.flagSet.Usage()`. -/
theorem exit_after_rejection :
    ((Parse (hostOf [("MY_STRING", "bar"), ("MY_BOOL", "false")])
        [WithFlagSet testSet, WithArguments (some [])]).halted = false ∧
      exitCodes (Parse (hostOf [("MY_STRING", "bar"), ("MY_BOOL", "false")])
        [WithFlagSet testSet, WithArguments (some [])]).log = []) ∧
      exitCodes (Parse (hostOf [("MY_INT", "seven")])
        [WithFlagSet intSetOf, WithArguments (some []), withExit recordingExit]).log = [2] ∧
      (Event.valueSet "my-int" "seven" (some "parse error") ∈
          (Parse (hostOf [("MY_INT", "seven")])
            [WithFlagSet zeroIntSet, WithArguments (some []), withExit recordingExit]).log ∧
        exitCodes (Parse (hostOf [("MY_INT", "seven")])
          [WithFlagSet zeroIntSet, WithArguments (some []), withExit recordingExit]).log = [] ∧
        (Parse (hostOf [("MY_INT", "seven")])
          [WithFlagSet zeroIntSet, WithArguments (some []), withExit recordingExit]).halted =
          true ∧
        Event.panic nilCallPanic ∈
          (Parse (hostOf [("MY_INT", "seven")])
            [WithFlagSet zeroIntSet, WithArguments (some []), withExit recordingExit]).log) := by
  decide

/-! ## The usage texts -/

/-- C9: after `updateUsage` on a run in progress, the usage text of every declared flag is
its text `u` before the call when `u` already begins with `"[" ++ mapper(flagName) ++ "] "`,
and that prefix followed by `u` otherwise; nothing else of the flags changes, and
afterwards every usage text begins with `"[" ++ mapper(flagName) ++ "] "`. -/
theorem updateUsage_spec (c : config V) (r : Run V) (hr : r.halted = false) :
    (updateUsage c r).flagSet.formal =
        r.flagSet.formal.map (fun f => { f with Usage :=
          (if HasPrefix f.Usage ("[" ++ c.mapper f.Name ++ "] ") = true then f.Usage
           else "[" ++ c.mapper f.Name ++ "] " ++ f.Usage) }) ∧
      ∀ f ∈ (updateUsage c r).flagSet.formal,
        HasPrefix f.Usage ("[" ++ c.mapper f.Name ++ "] ") = true := by
  rw [updateUsage_eq c r hr]
  constructor
  · show r.flagSet.formal.map (annotate c) = _
    apply List.map_congr_left
    intro f _
    exact annotate_eq c f
  · intro f hf
    have hf' : f ∈ r.flagSet.formal.map (annotate c) := hf
    obtain ⟨g, _, rfl⟩ := List.mem_map.1 hf'
    rw [annotate_name]
    exact annotate_hasPrefix c g

/-- The examples of C9 (`TestShowsEnvNamesInUsage`, `TestShowsPrefixedEnvNamesInUsage`):
the flag `test-flag-plz-ignore` with usage `Some usage` gets `[TEST_FLAG_PLZ_IGNORE] Some
usage`, and `[BOB_TEST_FLAG_PLZ_IGNORE] Some usage` under `WithPrefix("BOB_")`; the general
statement gives the prefix of the first. -/
theorem updateUsage_spec_witness :
    configFor (hostOf []) [WithFlagSet usageSet] = Except.ok (testConfig usageSet []) ∧
      configFor (hostOf []) [WithFlagSet usageSet, WithPrefix "BOB_"] =
        Except.ok (testConfig usageSet ["BOB_"]) ∧
      (updateUsage (testConfig usageSet []) (startRun (testConfig usageSet []))
        ).flagSet.usageOf "test-flag-plz-ignore" = some "[TEST_FLAG_PLZ_IGNORE] Some usage" ∧
      (updateUsage (testConfig usageSet ["BOB_"]) (startRun (testConfig usageSet ["BOB_"]))
        ).flagSet.usageOf "test-flag-plz-ignore" = some "[BOB_TEST_FLAG_PLZ_IGNORE] Some usage" ∧
      ∀ f ∈ (updateUsage (testConfig usageSet []) (startRun (testConfig usageSet []))
          ).flagSet.formal,
        HasPrefix f.Usage ("[" ++ (testConfig usageSet []).mapper f.Name ++ "] ") = true :=
  ⟨rfl, rfl, by decide, by decide,
    (updateUsage_spec (testConfig usageSet []) (startRun (testConfig usageSet [])) rfl).2⟩

/-- C10: when the resolved usage-annotation toggle is false, the usage text of every flag
after `Parse` is its usage text before `Parse`, for every flag set, environment and
argument list and however the run ends. -/
theorem Parse_usage_unchanged (h : Host V) (opts : List (OptionFn V)) (c : config V)
    (hc : configFor h opts = Except.ok c) (hoff : c.showInUsage = false) :
    (Parse h opts).flagSet.formal.map (fun f => (f.Name, f.Usage)) =
        c.flagSet.formal.map (fun f => (f.Name, f.Usage)) ∧
      ∀ n, (Parse h opts).flagSet.usageOf n = c.flagSet.usageOf n := by
  have hprep : (preparedRun c).flagSet.formal = c.flagSet.formal := by
    have : (prepare c : Flag V → Flag V) = id := by
      funext f
      simp [prepare, hoff]
    show c.flagSet.formal.map (prepare c) = _
    rw [this, List.map_id]
  have hformal : (Parse h opts).flagSet.formal = c.flagSet.formal := by
    rw [Parse_ok hc, parseWith_formal, hprep]
  refine ⟨by rw [hformal], fun n => ?_⟩
  unfold FlagSet.usageOf FlagSet.lookup
  rw [hformal]

/-- The example of C10 (`TestDoesntUpdateUsageIfShowInUsageDisabled`): with
`WithShowInUsage(false)` and the argument `-help` the usage text of
`test-flag-plz-ignore` stays `Some usage`. -/
theorem Parse_usage_unchanged_witness :
    (Parse (hostOf []) [WithFlagSet usageSet,
        WithArguments (some ["-help"]), WithShowInUsage false, withExit recordingExit]
      ).flagSet.usageOf "test-flag-plz-ignore" = some "Some usage" :=
  (Parse_usage_unchanged (hostOf []) [WithFlagSet usageSet,
    WithArguments (some ["-help"]), WithShowInUsage false, withExit recordingExit] _ rfl rfl).2
    "test-flag-plz-ignore"

/-! ## Repeated usage annotation -/

theorem annotate_congr {c1 c2 : config V} (hm : c2.mapper = c1.mapper) (f : Flag V) :
    annotate c2 f = annotate c1 f := by
  unfold annotate
  rw [hm]

theorem updateUsage_of_halted (c : config V) (r : Run V) (hr : r.halted = true) :
    updateUsage c r = r :=
  visit_halted _ _ r hr

/-- C11: applying `updateUsage` twice with the same mapper gives what applying it once
gives: the run after the second application is the run after the first, so every usage
text is the text after one application and the bracketed prefix is never duplicated. -/
theorem updateUsage_idempotent (c1 c2 : config V) (r : Run V) (hm : c2.mapper = c1.mapper) :
    updateUsage c2 (updateUsage c1 r) = updateUsage c1 r ∧
      ∀ n, (updateUsage c2 (updateUsage c1 r)).flagSet.usageOf n =
        (updateUsage c1 r).flagSet.usageOf n := by
  have key : updateUsage c2 (updateUsage c1 r) = updateUsage c1 r := by
    by_cases hr : r.halted = true
    · rw [updateUsage_of_halted c1 r hr, updateUsage_of_halted c2 r hr]
    · have hr' : r.halted = false := by simpa using hr
      rw [updateUsage_eq c1 r hr', updateUsage_eq c2 _ (by exact hr')]
      show r.withFormal (List.map (annotate c2) (List.map (annotate c1) r.flagSet.formal)) = _
      rw [List.map_map]
      apply congrArg
      apply List.map_congr_left
      intro f _
      show annotate c2 (annotate c1 f) = annotate c1 f
      rw [annotate_congr hm, annotate_idem]
  exact ⟨key, fun n => by rw [key]⟩

/-- The example of C11: annotating the flag of `TestShowsEnvNamesInUsage` twice leaves
`[TEST_FLAG_PLZ_IGNORE] Some usage`, with the prefix once. -/
theorem updateUsage_idempotent_witness :
    (updateUsage (testConfig usageSet [])
        (updateUsage (testConfig usageSet []) (startRun (testConfig usageSet [])))
        ).flagSet.usageOf "test-flag-plz-ignore" = some "[TEST_FLAG_PLZ_IGNORE] Some usage" :=
  ((updateUsage_idempotent (testConfig usageSet []) (testConfig usageSet [])
      (startRun (testConfig usageSet [])) rfl).2 "test-flag-plz-ignore").trans (by decide)

/-! ## The fields of the configuration -/

theorem applyOptions_ok_iff (opts : List (OptionFn V)) (c : config V) :
    (∃ c', applyOptions opts c = Except.ok c') ↔ none ∉ opts := by
  induction opts generalizing c with
  | nil => exact ⟨fun _ => by simp, fun _ => ⟨c, rfl⟩⟩
  | cons o rest ih =>
    cases o with
    | none =>
      constructor
      · rintro ⟨c', hc'⟩
        cases hc'
      · intro hn
        exact absurd (List.mem_cons_self _ _) hn
    | some f =>
      show (∃ c', applyOptions rest (f c) = Except.ok c') ↔ _
      rw [ih (f c)]
      simp

theorem applyOptions_append_ok {a : List (OptionFn V)} {c0 c : config V}
    (h : applyOptions a c0 = Except.ok c) (b : List (OptionFn V)) :
    applyOptions (a ++ b) c0 = applyOptions b c := by
  induction a generalizing c0 with
  | nil =>
    cases h
    rfl
  | cons o rest ih =>
    cases o with
    | none => cases h
    | some f => exact ih h

/-- The process started with an empty `os.Args` and no options, and the nil option on an
ordinary process: `configFor` panics, and so does `Parse`, before anything else happens. -/
theorem configFor_fields_counterexample :
    configFor bareHost ([] : List (OptionFn Val)) = Except.error sliceBoundsPanic ∧
      configFor (hostOf []) [WithShowInUsage false, none] = Except.error nilCallPanic ∧
      (Parse bareHost []).log = [Event.panic sliceBoundsPanic] ∧
      (Parse (hostOf []) [WithShowInUsage false, none]).log = [Event.panic nilCallPanic] :=
  ⟨rfl, rfl, by decide, by decide⟩

/-- C12, amended: `configFor` applies the options in the order supplied, starting from the
defaults, and the last option that sets a field decides it: the resolved argument list,
flag set and usage toggle (and exit callback) are those of the last `WithArguments`,
`WithFlagSet` and `WithShowInUsage` (and `withExit`) option of the sequence, and a field
that no option sets keeps its default (the arguments of the process, `flag.CommandLine`,
usage annotation enabled, `os.Exit`, and the default mapper when there is no
`WithPrefix`).  The call returns a configuration exactly when `os.Args` is not empty and
no option of the sequence is nil; for the empty sequence it then returns the defaults. -/
theorem configFor_fields (h : Host V) (specs more : List (OptionSpec V))
    (opts : List (OptionFn V)) :
    (h.Args ≠ [] →
      ∃ c, configFor h (specs.map OptionSpec.toOption) = Except.ok c ∧
        c.arguments = (lastPick OptionSpec.pickArguments specs).getD (some h.Args.tail) ∧
        c.flagSet = (lastPick OptionSpec.pickFlagSet specs).getD h.CommandLine ∧
        c.showInUsage = (lastPick OptionSpec.pickShowInUsage specs).getD true ∧
        c.exit = (lastPick OptionSpec.pickExit specs).getD osExit ∧
        (prefixesOf specs = [] → c.mapper = defaultMapper h.upperTable) ∧
        configFor h ((specs ++ more).map OptionSpec.toOption) =
          applyOptions (more.map OptionSpec.toOption) c) ∧
      (h.Args ≠ [] → configFor h [] = Except.ok (defaultConfig h)) ∧
      ((∃ c, configFor h opts = Except.ok c) ↔ h.Args ≠ [] ∧ none ∉ opts) := by
  refine ⟨?_, ?_, ?_⟩
  · intro hargs
    obtain ⟨c, h0, h1, h2, h3, h4, h5⟩ := configFor_specs h specs hargs
    refine ⟨c, h0, h2, h3, h4, h5, ?_, ?_⟩
    · intro hp
      funext s
      have := h1 s
      rw [hp] at this
      exact this
    · obtain ⟨a, args, ha⟩ := List.exists_cons_of_ne_nil hargs
      rw [configFor_of_args ha] at h0 ⊢
      rw [List.map_append]
      exact applyOptions_append_ok h0 _
  · intro hargs
    obtain ⟨a, args, ha⟩ := List.exists_cons_of_ne_nil hargs
    rw [configFor_of_args ha]
    rfl
  · constructor
    · rintro ⟨c, hc⟩
      have hargs := configFor_args_ne hc
      obtain ⟨a, args, ha⟩ := List.exists_cons_of_ne_nil hargs
      rw [configFor_of_args ha] at hc
      exact ⟨hargs, (applyOptions_ok_iff opts _).1 ⟨c, hc⟩⟩
    · rintro ⟨hargs, hn⟩
      obtain ⟨a, args, ha⟩ := List.exists_cons_of_ne_nil hargs
      rw [configFor_of_args ha]
      exact (applyOptions_ok_iff opts _).2 hn

/-- The example of C12: of two `WithArguments` options the second wins, whatever stands
between them, and the toggle that no option sets stays enabled. -/
theorem configFor_fields_witness :
    ∃ c, configFor (hostOf []) ([OptionSpec.arguments (some ["-a"]), OptionSpec.withPrefix "P_",
        OptionSpec.arguments (some ["-b"])].map OptionSpec.toOption) = Except.ok c ∧
      c.arguments = some ["-b"] ∧ c.showInUsage = true :=
  ((configFor_fields (hostOf []) [OptionSpec.arguments (some ["-a"]), OptionSpec.withPrefix "P_",
      OptionSpec.arguments (some ["-b"])] [] []).1 (by decide)).imp
    (fun _ hc => ⟨hc.1, hc.2.1, hc.2.2.2.1⟩)

/-! ## The diagnostic of the environment step -/

/-- C13: the integer flag `my-int` with `MY_INT=seven` and a returning exit callback.  On
the flag set of `TestExitsStatusTwoForBadEnvVars`, made by `flag.NewFlagSet`, the
diagnostic `Unable to set flag my-int value to seven from environment: parse error` and a
newline are written after the setter rejected the value, then the usage printer is
called, then the exit callback with status 2.  On the zero value of `flag.FlagSet`, whose
field `Usage` is nil, the diagnostic is written and the run ends in the panic of the call
`c.flagSet.Usage()`: no usage message is printed and the exit callback is not called. -/
theorem env_diagnostic_then_usage :
    (Parse (hostOf [("MY_INT", "seven")])
        [WithFlagSet intSetOf, WithArguments (some []), withExit recordingExit]).log =
      [Event.lookupEnv "MY_INT", Event.set "my-int" "seven",
       Event.valueSet "my-int" "seven" (some "parse error"),
       Event.write "Unable to set flag my-int value to seven from environment: parse error\n",
       Event.usage, Event.exit 2, Event.parse []] ∧
      diagnostic "my-int" "seven" "parse error" =
        "Unable to set flag my-int value to seven from environment: parse error\n" ∧
      (Parse (hostOf [("MY_INT", "seven")])
        [WithFlagSet zeroIntSet, WithArguments (some []), withExit recordingExit]).log =
      [Event.lookupEnv "MY_INT", Event.set "my-int" "seven",
       Event.valueSet "my-int" "seven" (some "parse error"),
       Event.write (diagnostic "my-int" "seven" "parse error"),
       Event.panic nilCallPanic] ∧
      (Parse (hostOf [("MY_INT", "seven")])
        [WithFlagSet zeroIntSet, WithArguments (some []), withExit recordingExit]).halted = true := by
  decide


/-! ## Invariants of the configuration -/

theorem defaultMapper_length (tbl : Char → Char) (s : String) :
    (defaultMapper tbl s).length = s.length := by
  show (defaultMapper tbl s).data.length = s.data.length
  rw [defaultMapper_data, List.length_map]
  unfold ToUpper
  rw [List.length_map]

theorem prefixed_length (ps : List String) (base : String) :
    (ps.foldl (fun acc p => p ++ acc) base).length = (ps.map String.length).sum + base.length := by
  induction ps generalizing base with
  | nil => simp
  | cons p ps ih =>
    rw [List.foldl_cons, ih, String.length_append, List.map_cons, List.sum_cons]
    omega

theorem length_pos_of_ne_empty {s : String} (hs : s ≠ "") : 0 < s.length := by
  by_contra hc
  apply hs
  have h0 : s.data.length = 0 := by
    have : s.length = 0 := by omega
    exact this
  have hd : s.data = [] := List.length_eq_zero.1 h0
  exact String.ext hd

/-- C14: for every sequence of options and every non-empty flag name `s`, the name mapper
of the configuration resolved by `configFor` returns a non-empty string for `s`: the
default mapper returns a string of the length of `s`, and every prefix adds its own
length. -/
theorem mapper_nonempty (h : Host V) (specs : List (OptionSpec V)) (s : String) (c : config V)
    (hs : s ≠ "") (hc : configFor h (specs.map OptionSpec.toOption) = Except.ok c) :
    c.mapper s ≠ "" ∧ defaultMapper h.upperTable s ≠ "" ∧
      (c.mapper s).length = ((prefixesOf specs).map String.length).sum + s.length := by
  have hpos := length_pos_of_ne_empty hs
  obtain ⟨c', h0, h1, _⟩ := configFor_specs h specs (configFor_args_ne hc)
  rw [hc] at h0
  cases h0
  have hlen : (c.mapper s).length = ((prefixesOf specs).map String.length).sum + s.length := by
    rw [h1 s, prefixed_length, defaultMapper_length]
  refine ⟨?_, ?_, hlen⟩
  · intro hcon
    rw [hcon] at hlen
    have : ("" : String).length = 0 := rfl
    omega
  · intro hcon
    have hl := defaultMapper_length h.upperTable s
    rw [hcon] at hl
    have : ("" : String).length = 0 := rfl
    omega

/-- The examples of C14: the non-empty name `x` is mapped to a non-empty name, with and
without a prefix. -/
theorem mapper_nonempty_witness :
    (∃ c, configFor (hostOf []) ([OptionSpec.withPrefix "P_"].map OptionSpec.toOption) =
        Except.ok c ∧ c.mapper "x" ≠ "") ∧
      defaultMapper id "x" ≠ "" :=
  ⟨⟨_, rfl, (mapper_nonempty (hostOf []) [OptionSpec.withPrefix "P_"] "x" _ (by decide) rfl).1⟩,
    (mapper_nonempty (hostOf []) [OptionSpec.withPrefix "P_"] "x" _ (by decide) rfl).2.1⟩

theorem applyOptions_append_error {a : List (OptionFn V)} {c0 : config V} {msg : String}
    (h : applyOptions a c0 = Except.error msg) (b : List (OptionFn V)) :
    applyOptions (a ++ b) c0 = Except.error msg := by
  induction a generalizing c0 with
  | nil => cases h
  | cons o rest ih =>
    cases o with
    | none => exact h
    | some f => exact ih h

/-- The option `WithArguments(nil)`: the resolved argument list is the nil slice. -/
theorem config_nonnull_counterexample :
    (∃ c, configFor (hostOf []) ([OptionSpec.arguments none].map OptionSpec.toOption) =
        Except.ok c ∧ c.arguments = none) ∧
      ∃ c, configFor (hostOf []) [WithFlagSet testSet, WithArguments none] = Except.ok c ∧
        c.arguments = none :=
  ⟨⟨_, rfl, rfl⟩, ⟨_, rfl, rfl⟩⟩

/-- C15, amended: the argument list of the configuration returned by `configFor` is nil
exactly when the last `WithArguments` option of the sequence was given the nil slice
(without such an option it is the argument list of the process, which is not nil), and a
nil argument list is parsed as the empty one; the exit callback is `os.Exit` unless the
`withExit` of the test suite replaced it. -/
theorem config_nonnull (h : Host V) (specs : List (OptionSpec V)) (opts : List (OptionFn V))
    (c : config V) (hc : configFor h (specs.map OptionSpec.toOption) = Except.ok c) :
    (c.arguments = none ↔ lastPick OptionSpec.pickArguments specs = some none) ∧
      (lastPick OptionSpec.pickArguments specs = none → c.arguments = some h.Args.tail) ∧
      (lastPick OptionSpec.pickExit specs = none → c.exit = osExit) ∧
      Parse h (opts ++ [WithArguments none]) = Parse h (opts ++ [WithArguments (some [])]) := by
  obtain ⟨c', h0, _, h1, _, _, h4⟩ := configFor_specs h specs (configFor_args_ne hc)
  rw [hc] at h0
  cases h0
  refine ⟨?_, ?_, ?_, ?_⟩
  · rw [h1]
    cases hl : lastPick OptionSpec.pickArguments specs with
    | none =>
      constructor
      · intro hcon
        cases hcon
      · intro hcon
        cases hcon
    | some a =>
      constructor
      · intro hcon
        exact congrArg some hcon
      · intro hcon
        exact Option.some.inj hcon
  · intro hn
    rw [h1, hn]
    rfl
  · intro hn
    rw [h4, hn]
    rfl
  · obtain ⟨a, args, ha⟩ := List.exists_cons_of_ne_nil (configFor_args_ne hc)
    unfold Parse
    rw [configFor_of_args ha, configFor_of_args ha]
    cases hres : applyOptions opts (defaultConfig h) with
    | error msg =>
      rw [applyOptions_append_error hres, applyOptions_append_error hres]
    | ok c1 =>
      rw [applyOptions_append_ok hres, applyOptions_append_ok hres]
      rfl

/-- The example of C15: with `WithArguments` of an empty slice the argument list is the empty
slice, not nil, and without `withExit` the exit callback is `os.Exit`. -/
theorem config_nonnull_witness :
    ∃ c, configFor (hostOf []) ([OptionSpec.flagSet testSet, OptionSpec.arguments (some [])].map
        OptionSpec.toOption) = Except.ok c ∧ c.arguments ≠ none ∧ c.exit = osExit :=
  ⟨_, rfl,
    fun hcon => Option.noConfusion (Option.some.inj
      ((config_nonnull (hostOf []) [OptionSpec.flagSet testSet,
        OptionSpec.arguments (some [])] [] _ rfl).1.1 hcon)),
    (config_nonnull (hostOf []) [OptionSpec.flagSet testSet,
      OptionSpec.arguments (some [])] [] _ rfl).2.2.1 rfl⟩


/-! ## Annotation under two mappers -/

theorem bracket_prefix_eq (a b x y : List Char) (ha : ']' ∉ a) (hb : ']' ∉ b)
    (h : (b ++ ']' :: x) <+: (a ++ ']' :: y)) : a = b := by
  induction a generalizing b with
  | nil =>
    cases b with
    | nil => rfl
    | cons d b' =>
      have h1 : d = ']' := (List.cons_prefix_cons.1 h).1
      exact absurd (h1 ▸ List.mem_cons_self d b') hb
  | cons c a' ih =>
    cases b with
    | nil =>
      have h1 : ']' = c := (List.cons_prefix_cons.1 h).1
      exact absurd (h1 ▸ List.mem_cons_self c a') ha
    | cons d b' =>
      obtain ⟨h1, h2⟩ := List.cons_prefix_cons.1 h
      have := ih b' (fun hm => ha (List.mem_cons_of_mem _ hm))
        (fun hm => hb (List.mem_cons_of_mem _ hm)) h2
      rw [h1, this]

theorem bracketed_data (m : String) :
    ("[" ++ m ++ "] ").data = '[' :: (m.data ++ ']' :: [' ']) := by
  rw [String.data_append, String.data_append]
  rfl

theorem not_hasPrefix_of_ne (c1 c2 : config V) (f : Flag V)
    (hne : c1.mapper f.Name ≠ c2.mapper f.Name)
    (h1 : ']' ∉ (c1.mapper f.Name).data) (h2 : ']' ∉ (c2.mapper f.Name).data) :
    HasPrefix (annotate c1 f).Usage ("[" ++ c2.mapper f.Name ++ "] ") = false := by
  cases hp : HasPrefix (annotate c1 f).Usage ("[" ++ c2.mapper f.Name ++ "] ") with
  | false => rfl
  | true =>
    exfalso
    have hp1 := annotate_hasPrefix c1 f
    unfold HasPrefix at hp hp1
    rw [List.isPrefixOf_iff_prefix] at hp hp1
    obtain ⟨rest, hrest⟩ := hp1
    rw [← hrest, bracketed_data, bracketed_data] at hp
    have hp' : ((c2.mapper f.Name).data ++ ']' :: [' ']) <+:
        ((c1.mapper f.Name).data ++ ']' :: (' ' :: rest)) := by
      simpa using hp
    have heq := bracket_prefix_eq _ _ _ _ h1 h2 hp'
    exact hne (String.ext heq)

/-- The flag `n` with the usage text `[X_N] Some usage`, annotated first with the default
mapper and then with the mapper of `WithPrefix("N] [X_")`: the two mappers give different
names for the flag, yet the second annotation changes nothing, because the text after the
first annotation already begins with the second prefix. -/
theorem annotate_twice_counterexample :
    (configFor (hostOf []) [WithFlagSet bracketSet] = Except.ok (testConfig bracketSet []) ∧
      configFor (hostOf []) [WithFlagSet bracketSet, WithPrefix "N] [X_"] =
        Except.ok (testConfig bracketSet ["N] [X_"])) ∧
      (testConfig bracketSet []).mapper "n" ≠ (testConfig bracketSet ["N] [X_"]).mapper "n" ∧
      (annotate (testConfig bracketSet [])
        (stringFlag 0 "n" "foo" "[X_N] Some usage").flag).Usage = "[N] [X_N] Some usage" ∧
      (annotate (testConfig bracketSet ["N] [X_"])
        (annotate (testConfig bracketSet [])
          (stringFlag 0 "n" "foo" "[X_N] Some usage").flag)).Usage = "[N] [X_N] Some usage" ∧
      (annotate (testConfig bracketSet ["N] [X_"])
        (annotate (testConfig bracketSet [])
          (stringFlag 0 "n" "foo" "[X_N] Some usage").flag)).Usage ≠
        "[" ++ (testConfig bracketSet ["N] [X_"]).mapper "n" ++ "] " ++
          (annotate (testConfig bracketSet [])
            (stringFlag 0 "n" "foo" "[X_N] Some usage").flag).Usage ∧
      (updateUsage (testConfig bracketSet ["N] [X_"])
        (updateUsage (testConfig bracketSet []) (startRun (testConfig bracketSet [])))
        ).flagSet.usageOf "n" = some "[N] [X_N] Some usage" :=
  ⟨⟨rfl, rfl⟩, by decide⟩

/-- C16, amended: annotating with a mapper `m1` and then with a mapper `m2` annotates every
flag twice; for a flag `n` the second annotation prepends `"[" ++ m2(n) ++ "] "` to the
text produced by the first one, unless that text already begins with it, in which case it
changes nothing; and the text does not begin with it whenever `m1(n)` and `m2(n)` differ
and neither contains the character `]`. -/
theorem annotate_twice (c1 c2 : config V) (r : Run V) (f : Flag V) (hr : r.halted = false) :
    (updateUsage c2 (updateUsage c1 r)).flagSet.formal =
        r.flagSet.formal.map (fun f => annotate c2 (annotate c1 f)) ∧
      (HasPrefix (annotate c1 f).Usage ("[" ++ c2.mapper f.Name ++ "] ") = false →
        (annotate c2 (annotate c1 f)).Usage =
          "[" ++ c2.mapper f.Name ++ "] " ++ (annotate c1 f).Usage) ∧
      (HasPrefix (annotate c1 f).Usage ("[" ++ c2.mapper f.Name ++ "] ") = true →
        annotate c2 (annotate c1 f) = annotate c1 f) ∧
      (c1.mapper f.Name ≠ c2.mapper f.Name → ']' ∉ (c1.mapper f.Name).data →
        ']' ∉ (c2.mapper f.Name).data →
        (annotate c2 (annotate c1 f)).Usage =
          "[" ++ c2.mapper f.Name ++ "] " ++ (annotate c1 f).Usage) := by
  have hneg : HasPrefix (annotate c1 f).Usage ("[" ++ c2.mapper f.Name ++ "] ") = false →
      (annotate c2 (annotate c1 f)).Usage =
        "[" ++ c2.mapper f.Name ++ "] " ++ (annotate c1 f).Usage := by
    intro hp
    rw [annotate_of_neg c2 (annotate c1 f) (by rw [annotate_name]; exact hp), annotate_name]
  refine ⟨?_, hneg, ?_, ?_⟩
  · rw [updateUsage_eq c1 r hr, updateUsage_eq c2 _ (by exact hr)]
    show List.map (annotate c2) (List.map (annotate c1) r.flagSet.formal) = _
    rw [List.map_map]
    rfl
  · intro hp
    exact annotate_of_pos c2 (annotate c1 f) (by rw [annotate_name]; exact hp)
  · intro hne h1 h2
    exact hneg (not_hasPrefix_of_ne c1 c2 f hne h1 h2)

/-- The example of C16: the flag of `TestShowsEnvNamesInUsage`, annotated with the default
mapper and then with the mapper of `WithPrefix("BOB_")`, carries both prefixes, the later
one in front. -/
theorem annotate_twice_witness :
    (annotate (testConfig usageSet ["BOB_"])
        (annotate (testConfig usageSet [])
          (stringFlag 0 "test-flag-plz-ignore" "foo" "Some usage").flag)).Usage =
      "[BOB_TEST_FLAG_PLZ_IGNORE] [TEST_FLAG_PLZ_IGNORE] Some usage" :=
  ((annotate_twice (testConfig usageSet []) (testConfig usageSet ["BOB_"])
      (startRun (testConfig usageSet []))
      (stringFlag 0 "test-flag-plz-ignore" "foo" "Some usage").flag rfl).2.2.2
    (by decide) (by decide) (by decide)).trans (by decide)

/-! ## Names that share an environment variable -/

theorem defaultMapper_ascii (tbl : Char → Char) (s : String)
    (hs : ∀ c ∈ s.data, c.toNat ≤ 0x7F) : defaultMapper tbl s = defaultMapper id s := by
  apply String.ext
  rw [defaultMapper_data, defaultMapper_data]
  unfold ToUpper
  simp only [List.map_map]
  apply List.map_congr_left
  intro c hc
  simp only [Function.comp_apply]
  rw [(unicodeToUpper_ascii tbl c (hs c hc)).1, (unicodeToUpper_ascii id c (hs c hc)).1]

/-- C17: the default mapper is not injective: the distinct names `my-flag`, `my.flag` and
`MY_FLAG` are all mapped to the same environment-variable name; and whenever two declared
flags are mapped to the same variable and that variable exists, the environment step, if
it runs to its end, sets both flags from that one variable: `FlagSet.Set` is called on
each of them with the content of the variable, and a flag that has its variable for itself
then holds what its setter made of that content. -/
theorem mapper_collision (h : Host V) (opts : List (OptionFn V)) (c : config V) (f g : Flag V)
    (x v : String) (hc : configFor h opts = Except.ok c)
    (hnd : (c.flagSet.formal.map Flag.Name).Nodup)
    (hf : f ∈ c.flagSet.formal) (hg : g ∈ c.flagSet.formal)
    (hmf : c.mapper f.Name = x) (hmg : c.mapper g.Name = x)
    (henv : h.LookupEnv x = some v)
    (hrun : (afterEnv h c).halted = false) :
    (∀ tbl, defaultMapper tbl "my-flag" = defaultMapper tbl "my.flag" ∧
        defaultMapper tbl "my-flag" = defaultMapper tbl "MY_FLAG") ∧
      "my-flag" ≠ "my.flag" ∧ "my-flag" ≠ "MY_FLAG" ∧
      Event.set f.Name v ∈ (Parse h opts).log ∧ Event.set g.Name v ∈ (Parse h opts).log ∧
      (f.Unshared c.flagSet.formal →
        (afterEnv h c).flagSet.valueOf f.Name = some (f.Set (c.flagSet.vars f.Value) v).1) ∧
      (g.Unshared c.flagSet.formal →
        (afterEnv h c).flagSet.valueOf g.Name = some (g.Set (c.flagSet.vars g.Value) v).1) := by
  have key : ∀ k : Flag V, k ∈ c.flagSet.formal → c.mapper k.Name = x →
      Event.set k.Name v ∈ (afterEnv h c).log ∧
      (k.Unshared c.flagSet.formal →
        (afterEnv h c).flagSet.valueOf k.Name = some (k.Set (c.flagSet.vars k.Value) v).1) := by
    intro k hk hmk
    have hp := prepare_eq c k
    have hnd' : ((preparedRun c).flagSet.formal.map Flag.Name).Nodup := by
      rw [preparedRun_names]
      exact hnd
    have hmem : prepare c k ∈ (preparedRun c).flagSet.formal := List.mem_map_of_mem _ hk
    have hlook := lookup_of_mem_nodup hnd' hmem
    have hstep := env_visit_value h c (sortFlags (preparedRun c).flagSet.formal)
      (preparedRun c) (sortFlags_nodup hnd') (mem_sortFlags.2 hmem) hlook
      (by rw [hp.1, hmk]; exact henv) (by rw [← afterEnv_eq]; exact hrun)
    rw [← afterEnv_eq, hp.1] at hstep
    refine ⟨hstep.1, fun hun => ?_⟩
    have hv := hstep.2 (prepare_unshared c hun)
    rw [hp.2.1, hp.2.2] at hv
    unfold FlagSet.valueOf
    rw [(afterEnv_tracks h c).1.lookup, ← hp.1, hlook]
    show some ((afterEnv h c).flagSet.vars (prepare c k).Value) = _
    rw [hp.2.1, hv]
    rfl
  have hsub : ∀ e, e ∈ (afterEnv h c).log → e ∈ (Parse h opts).log := by
    intro e he
    rw [Parse_ok hc, (parseWith_argEvents h c).1]
    exact List.mem_append_left _ he
  refine ⟨?_, by decide, by decide, hsub _ (key f hf hmf).1, hsub _ (key g hg hmg).1,
    (key f hf hmf).2, (key g hg hmg).2⟩
  intro tbl
  rw [defaultMapper_ascii tbl "my-flag" (by decide), defaultMapper_ascii tbl "my.flag" (by decide),
    defaultMapper_ascii tbl "MY_FLAG" (by decide)]
  decide

/-- The example of C17: with the flags `my-flag` and `my.flag` declared and `MY_FLAG=x` in
the environment, both flags end the environment step with the value `x`. -/
theorem mapper_collision_witness :
    (Event.set "my-flag" "x" ∈ (Parse (hostOf [("MY_FLAG", "x")])
        [WithFlagSet collidingSet, WithArguments (some [])]).log ∧
      Event.set "my.flag" "x" ∈ (Parse (hostOf [("MY_FLAG", "x")])
        [WithFlagSet collidingSet, WithArguments (some [])]).log) ∧
      (afterEnv (hostOf [("MY_FLAG", "x")]) (testConfig collidingSet [])).flagSet.valueOf "my-flag" =
        some (Val.str "x") ∧
      (afterEnv (hostOf [("MY_FLAG", "x")]) (testConfig collidingSet [])).flagSet.valueOf "my.flag" =
        some (Val.str "x") :=
  ⟨⟨(mapper_collision (hostOf [("MY_FLAG", "x")])
      [WithFlagSet collidingSet, WithArguments (some [])] (testConfig collidingSet [])
      (stringFlag 0 "my-flag" "a" "First flag").flag (stringFlag 1 "my.flag" "b" "Second flag").flag
      "MY_FLAG" "x" rfl (by decide) (List.Mem.head _) (List.Mem.tail _ (List.Mem.head _))
      (by decide) (by decide) (by decide) (by decide)).2.2.2.1,
    (mapper_collision (hostOf [("MY_FLAG", "x")])
      [WithFlagSet collidingSet, WithArguments (some [])] (testConfig collidingSet [])
      (stringFlag 0 "my-flag" "a" "First flag").flag (stringFlag 1 "my.flag" "b" "Second flag").flag
      "MY_FLAG" "x" rfl (by decide) (List.Mem.head _) (List.Mem.tail _ (List.Mem.head _))
      (by decide) (by decide) (by decide) (by decide)).2.2.2.2.1⟩,
    (mapper_collision (hostOf [("MY_FLAG", "x")])
      [WithFlagSet collidingSet, WithArguments (some [])] (testConfig collidingSet [])
      (stringFlag 0 "my-flag" "a" "First flag").flag (stringFlag 1 "my.flag" "b" "Second flag").flag
      "MY_FLAG" "x" rfl (by decide) (List.Mem.head _) (List.Mem.tail _ (List.Mem.head _))
      (by decide) (by decide) (by decide) (by decide)).2.2.2.2.2.1 (by unfold Flag.Unshared; decide),
    (mapper_collision (hostOf [("MY_FLAG", "x")])
      [WithFlagSet collidingSet, WithArguments (some [])] (testConfig collidingSet [])
      (stringFlag 0 "my-flag" "a" "First flag").flag (stringFlag 1 "my.flag" "b" "Second flag").flag
      "MY_FLAG" "x" rfl (by decide) (List.Mem.head _) (List.Mem.tail _ (List.Mem.head _))
      (by decide) (by decide) (by decide) (by decide)).2.2.2.2.2.2 (by unfold Flag.Unshared; decide)⟩

end envflag
